import Mathlib

/-!
Shallow embedding of the lab-report ingestion and clinical-insight core of the
nutrition practice manager (src/services/labs_parser.py,
src/services/clinical_intelligence.py, src/services/settings_service.py,
src/services/measurements_service.py).

Modelling conventions:
* Python strings are `List Char` (or `String` where convenient); the regex
  character classes `\d` and `\s` are modelled over ASCII (the reports and the
  synonym vocabulary are ASCII/Turkish text; non-ASCII digits or exotic
  whitespace do not occur in the shapes the code manipulates).
* Python floats are modelled as exact rationals `ℚ`; `float()` is modelled on
  the numeric shapes that reach it in this code (sign, digits, optional
  fractional part), which is exactly what the regex captures produce.
* Regexes are modelled by hand-rolled matchers with Python's leftmost/greedy
  semantics for these particular patterns (no backtracking is ever needed for
  them: after a maximal digit run the following char can never re-enter a
  digit class, so the greedy parse is the unique parse).
* `datetime.strptime(m.measured_at, "%Y-%m-%d")` dates are modelled as the day
  numbers (`ℤ`) they denote; differences of datetimes at midnight have exact
  whole-day `.days`.
-/

/-- ASCII decimal digit, the `\d` of the patterns in `labs_parser.py`. -/
def isDigitCh (c : Char) : Bool := 48 ≤ c.toNat && c.toNat ≤ 57

/-- ASCII whitespace, the `\s` of the patterns and `str.strip()`/`str.split`. -/
def isSpaceCh (c : Char) : Bool :=
  c.toNat = 32 || c.toNat = 9 || c.toNat = 10 || c.toNat = 13 || c.toNat = 11 || c.toNat = 12

/-- The character class `[a-z0-9]` of `norm_key`'s first `re.sub`. -/
def isLowAlnum (c : Char) : Bool :=
  (97 ≤ c.toNat && c.toNat ≤ 122) || (48 ≤ c.toNat && c.toNat ≤ 57)

/-- Python `str.lstrip()` (whitespace modelled over ASCII). -/
def lstrip (cs : List Char) : List Char := cs.dropWhile isSpaceCh

/-- Python `str.rstrip()`. -/
def rstrip (cs : List Char) : List Char := (cs.reverse.dropWhile isSpaceCh).reverse

/-- Python `str.strip()`. -/
def pstrip (cs : List Char) : List Char := rstrip (lstrip cs)

/-- `re.sub(r"\s+", " ", s)`: each maximal whitespace run becomes one space.
The flag records whether we are inside a run that already emitted its space. -/
def collapseF : Bool → List Char → List Char
  | _, [] => []
  | inRun, c :: cs =>
    if isSpaceCh c then
      if inRun then collapseF true cs else ' ' :: collapseF true cs
    else c :: collapseF false cs

def collapseWs (cs : List Char) : List Char := collapseF false cs

/-- `re.sub(r"[^a-z0-9]+", " ", s)` of `norm_key`. -/
def subNAF : Bool → List Char → List Char
  | _, [] => []
  | inRun, c :: cs =>
    if isLowAlnum c then c :: subNAF false cs
    else if inRun then subNAF true cs else ' ' :: subNAF true cs

def subNA (cs : List Char) : List Char := subNAF false cs

/-- Python `left.split(" ")`: split at each single space, keeping empty pieces. -/
def splitSpace : List Char → List (List Char)
  | [] => [[]]
  | c :: rest =>
    let r := splitSpace rest
    if c = ' ' then [] :: r
    else (c :: r.headD []) :: r.tail

/-- Python `" ".join(...)`. -/
def joinSpace (ts : List (List Char)) : List Char := List.intercalate [' '] ts

/-- Python `text.splitlines()`, modelled as splitting at `'\n'` (other line
terminators never survive PDF text extraction here; empty trailing pieces are
harmless because no short line produces a row). -/
def splitLinesAux : List Char → List Char → List (List Char)
  | [], acc => [acc.reverse]
  | c :: cs, acc =>
    if c = '\n' then acc.reverse :: splitLinesAux cs []
    else splitLinesAux cs (c :: acc)

def splitLines (cs : List Char) : List (List Char) := splitLinesAux cs []

/-- Python `ms_sorted[-n:]`. -/
def lastN {α : Type} (n : ℕ) (l : List α) : List α := l.drop (l.length - n)

/-- Value of a list of decimal digit characters. -/
def digitsVal (ds : List Char) : ℕ := ds.foldl (fun n c => 10 * n + (c.toNat - 48)) 0

/-- Greedy `\d+`-style digit-run splitter: maximal digit prefix and the rest. -/
def takeDigits : List Char → List Char × List Char
  | [] => ([], [])
  | c :: cs =>
    if isDigitCh c then
      let p := takeDigits cs
      (c :: p.1, p.2)
    else ([], c :: cs)

/-- The digits-and-optional-fraction magnitude accepted by `float()` after an
optional sign: `digits`, `digits.digits`, `digits.` or `.digits`. -/
def pyFloatMag (cs : List Char) : Option ℚ :=
  match takeDigits cs with
  | (ds, []) => if ds = [] then none else some (digitsVal ds : ℚ)
  | (ds, c :: r2) =>
    if c = '.' then
      match takeDigits r2 with
      | (fs, []) =>
        if ds = [] ∧ fs = [] then none
        else some ((digitsVal ds : ℚ) + (digitsVal fs : ℚ) / (10 : ℚ) ^ fs.length)
      | _ => none
    else none

/-- Python `float()` on the shapes reachable in `labs_parser.py` (an optional
sign, a digit run, an optional `.`-separated fractional digit run — exactly
what the regex captures look like after `,` is replaced by `.`). -/
def pyFloat : List Char → Option ℚ
  | [] => none
  | c :: r =>
    if c = '+' then pyFloatMag r
    else if c = '-' then (pyFloatMag r).map (fun q => -q)
    else pyFloatMag (c :: r)

/-- `_to_float`: replace `,` by `.`, then `float()`. -/
def to_float (cs : List Char) : Option ℚ :=
  pyFloat (cs.map (fun c => if c = ',' then '.' else c))

/-- Decimal digits of a natural number (fuelled; `natChars 0 = "0"`). -/
def natCharsGo : ℕ → ℕ → List Char → List Char
  | 0, _, acc => acc
  | fuel + 1, n, acc =>
    if n = 0 then acc else natCharsGo fuel (n / 10) (Char.ofNat (48 + n % 10) :: acc)

def natChars (n : ℕ) : List Char := if n = 0 then ['0'] else natCharsGo n n []

def padZeros (k : ℕ) (ds : List Char) : List Char := List.replicate (k - ds.length) '0' ++ ds

/-- Round to the nearest integer, ties to even — the rounding of `format`. -/
def roundHalfEven (x : ℚ) : ℤ :=
  let f := Rat.floor x
  let r := x - (f : ℚ)
  if r < 1/2 then f else if 1/2 < r then f + 1 else if f % 2 = 0 then f else f + 1

/-- Python `f"{q:.kf}"` fixed-point formatting, modelled over exact rationals. -/
def fmtFixed (k : ℕ) (q : ℚ) : String :=
  let n := roundHalfEven (q * (10 : ℚ) ^ k)
  let sign := if n < 0 then "-" else ""
  let a := n.natAbs
  if k = 0 then sign ++ String.mk (natChars a)
  else sign ++ String.mk (natChars (a / 10 ^ k)) ++ "." ++ String.mk (padZeros k (natChars (a % 10 ^ k)))

/-- Python `f"{q:+.1f}"` (always-signed, one decimal). -/
def fmtS1 (q : ℚ) : String := if q < 0 then fmtFixed 1 q else "+" ++ fmtFixed 1 q

/-- Decimal string of an integer. -/
def intStr (z : ℤ) : String := (if z < 0 then "-" else "") ++ String.mk (natChars z.natAbs)

/-- The `\d+(?:[.,]\d+)?` core of the reference patterns: matched text and rest. -/
def matchNumCore (cs : List Char) : Option (List Char × List Char) :=
  match takeDigits cs with
  | ([], _) => none
  | (ds, r) =>
    match r with
    | c :: r2 =>
      if c = '.' ∨ c = ',' then
        match takeDigits r2 with
        | ([], _) => some (ds, r)
        | (fs, r3) => some (ds ++ c :: fs, r3)
      else some (ds, r)
    | [] => some (ds, r)

/-- `-?\d+(?:[.,]\d+)?` (the capture groups of `_RE_RANGE`/`_RE_LT`/`_RE_GT`). -/
def matchSignedNum : List Char → Option (List Char × List Char)
  | [] => none
  | c :: cs =>
    if c = '-' then (matchNumCore cs).map (fun p => ('-' :: p.1, p.2))
    else matchNumCore (c :: cs)

/-- `_RE_RANGE` tried at the start of the input: `(low)\s*-\s*(high)`.
Returns the two captures and the rest after the match. -/
def tryRangeCaps (cs : List Char) : Option ((List Char × List Char) × List Char) :=
  match matchSignedNum cs with
  | none => none
  | some (lo, r1) =>
    match lstrip r1 with
    | [] => none
    | c :: r2 =>
      if c = '-' then
        match matchSignedNum (lstrip r2) with
        | none => none
        | some (hi, r3) => some ((lo, hi), r3)
      else none

/-- `_RE_LT` tried at the start of the input: `<\s*(lim)`. -/
def tryLtCaps : List Char → Option (List Char × List Char)
  | [] => none
  | c :: cs => if c = '<' then matchSignedNum (lstrip cs) else none

/-- `_RE_GT` tried at the start of the input: `>\s*(lim)`. -/
def tryGtCaps : List Char → Option (List Char × List Char)
  | [] => none
  | c :: cs => if c = '>' then matchSignedNum (lstrip cs) else none

/-- `_RE_NUM` = `[-+]?\d+(?:[.,]\d+)?` tried at the start of the input. -/
def matchNumToken : List Char → Option (List Char × List Char)
  | [] => none
  | c :: cs =>
    if c = '+' then (matchNumCore cs).map (fun p => ('+' :: p.1, p.2))
    else if c = '-' then (matchNumCore cs).map (fun p => ('-' :: p.1, p.2))
    else matchNumCore (c :: cs)

/-- `_RE_NUM.fullmatch(token)` as a Boolean. -/
def numFullmatch (t : List Char) : Bool :=
  match matchNumToken t with
  | some (_, []) => true
  | _ => false

/-- The shape of every successful `matchNumCore` capture: a non-empty digit
run, optionally followed by a decimal separator and another digit run. -/
def NumShape (m : List Char) : Prop :=
  ∃ ds, ds ≠ [] ∧ (∀ c ∈ ds, isDigitCh c = true) ∧
    (m = ds ∨ ∃ sep fs, (sep = '.' ∨ sep = ',') ∧ fs ≠ [] ∧
      (∀ c ∈ fs, isDigitCh c = true) ∧ m = ds ++ sep :: fs)

/-- The shape of a `matchSignedNum` / `matchNumToken` capture. -/
def SignedNumShape (m : List Char) : Prop :=
  NumShape m ∨ (∃ m', m = '-' :: m' ∧ NumShape m') ∨ (∃ m', m = '+' :: m' ∧ NumShape m')

/-- `re.finditer` for a pattern `f` tried at successive positions: after a
(non-empty) match the scan resumes at its end, otherwise it advances one
character.  Yields `(start position, captures)` pairs in order. -/
def findIterGo {γ : Type} (f : List Char → Option (γ × List Char)) :
    ℕ → List Char → ℕ → List (ℕ × γ)
  | 0, _, _ => []
  | fuel + 1, cs, pos =>
    match cs with
    | [] => []
    | _ :: tail =>
      match f cs with
      | none => findIterGo f fuel tail (pos + 1)
      | some (g, rest) =>
        if cs.length - rest.length = 0 then findIterGo f fuel tail (pos + 1)
        else (pos, g) :: findIterGo f fuel rest (pos + (cs.length - rest.length))

def findIter {γ : Type} (f : List Char → Option (γ × List Char)) (cs : List Char) :
    List (ℕ × γ) :=
  findIterGo f cs.length cs 0

/-- `re.search`: the captures of the leftmost match, if any. -/
def reSearch {γ : Type} (f : List Char → Option (γ × List Char)) (cs : List Char) :
    Option γ :=
  match findIter f cs with
  | [] => none
  | (_, g) :: _ => some g

/-- Start positions of all `_RE_RANGE` matches in a line. -/
def rangeStarts (cs : List Char) : List ℕ := (findIter tryRangeCaps cs).map Prod.fst

/-- Start positions of all `_RE_LT` matches in a line. -/
def ltStarts (cs : List Char) : List ℕ := (findIter tryLtCaps cs).map Prod.fst

/-- Start positions of all `_RE_GT` matches in a line. -/
def gtStarts (cs : List Char) : List ℕ := (findIter tryGtCaps cs).map Prod.fst

/-- The reference-match selection loop of `_extract_row_from_line`:
`for rx in (_RE_RANGE, _RE_LT, _RE_GT): for m in rx.finditer(raw): ref_match = m`
— the final value of `ref_match` is the last assignment, i.e. the last element
of the concatenation of the three match lists in pattern order. -/
def refMatchStart (cs : List Char) : Option ℕ :=
  (rangeStarts cs ++ ltStarts cs ++ gtStarts cs).getLast?

/-- `RefRange` of `labs_parser.py` (mode is the open string tag of the source:
"range" / "lt" / "gt" / "unknown"). -/
structure RefRange where
  mode : String
  low : Option ℚ
  high : Option ℚ
  text : List Char
deriving DecidableEq, Repr

/-- `parse_ref`: try `_RE_RANGE`, then `_RE_LT`, then `_RE_GT` on the stripped
text; first pattern with a match anywhere wins; otherwise mode "unknown". -/
def parse_ref (cs : List Char) : RefRange :=
  let t := pstrip cs
  match reSearch tryRangeCaps t with
  | some (lo, hi) => ⟨"range", to_float lo, to_float hi, t⟩
  | none =>
    match reSearch tryLtCaps t with
    | some lim => ⟨"lt", none, to_float lim, t⟩
    | none =>
      match reSearch tryGtCaps t with
      | some lim => ⟨"gt", to_float lim, none, t⟩
      | none => ⟨"unknown", none, none, t⟩

/-- `classify_value(value, ref, borderline_ratio)` of `labs_parser.py`. -/
def classify_value (value : Option ℚ) (ref : RefRange) (br : ℚ) : String :=
  match value with
  | none => "unknown"
  | some v =>
    if ref.mode = "range" then
      match ref.low, ref.high with
      | some lo, some hi =>
        if v < lo then "low"
        else if hi < v then "high"
        else if v ≤ lo + (max (hi - lo) (1/1000000)) * br ∨
            hi - (max (hi - lo) (1/1000000)) * br ≤ v then "borderline"
        else "normal"
      | _, _ => "unknown"
    else if ref.mode = "lt" then
      match ref.high with
      | some hi =>
        if hi < v then "high"
        else if hi * (1 - br) ≤ v then "borderline"
        else "normal"
      | none => "unknown"
    else if ref.mode = "gt" then
      match ref.low with
      | some lo =>
        if v < lo then "low"
        else if v ≤ lo * (1 + br) then "borderline"
        else "normal"
      | none => "unknown"
    else "unknown"

/-- `LabRow` of `labs_parser.py`. -/
structure LabRow where
  test_name : List Char
  result_text : List Char
  result_value : Option ℚ
  unit : List Char
  ref_text : List Char
  ref : RefRange
  status : String
deriving DecidableEq, Repr

/-- Rightmost token index whose whole text matches `_RE_NUM` (the
right-to-left scan for the numeric result). -/
def findValIdx : List (List Char) → Option ℕ
  | [] => none
  | t :: ts =>
    match findValIdx ts with
    | some j => some (j + 1)
    | none => if numFullmatch t then some 0 else none

/-- The tail of `_extract_row_from_line` once the reference match start `s` is
fixed: split off reference text and left part, locate the numeric result,
assemble the row. -/
def extractTail (raw : List Char) (s : ℕ) : Option LabRow :=
  let refText := pstrip (raw.drop s)
  let left := pstrip (raw.take s)
  let tokens := splitSpace left
  match findValIdx tokens with
  | none => none
  | some i =>
    let result_text := (tokens.drop i).headD []
    let value := to_float result_text
    let unit := pstrip (joinSpace (tokens.drop (i + 1)))
    let name := pstrip (joinSpace (tokens.take i))
    if name.length < 2 then none
    else
      let ref := parse_ref refText
      some ⟨name, result_text, value, unit, refText, ref, classify_value value ref (1/20)⟩

/-- `_extract_row_from_line` of `labs_parser.py`. -/
def extract_row_from_line (line : List Char) : Option LabRow :=
  let raw := collapseWs (pstrip line)
  if raw.length < 8 then none
  else
    match refMatchStart raw with
    | none => none
    | some s => extractTail raw s

/-- `parse_enabiz_text`: parse every line, keep the successful extractions. -/
def parse_enabiz_text (text : List Char) : List LabRow :=
  (splitLines text).filterMap extract_row_from_line

/-- Python `str.casefold()`, modelled on ASCII letters and the Turkish capital
letters that actually occur in lab vocabulary ('İ' casefolds to "i" plus
U+0307 COMBINING DOT ABOVE, exactly as in CPython). Other characters are left
unchanged; they are erased by the `[^a-z0-9]+` substitution anyway. -/
def caseFoldChar (c : Char) : List Char :=
  if 65 ≤ c.toNat ∧ c.toNat ≤ 90 then [Char.ofNat (c.toNat + 32)]
  else if c = 'İ' then ['i', Char.ofNat 775]
  else if c = 'Ş' then ['ş']
  else if c = 'Ğ' then ['ğ']
  else if c = 'Ü' then ['ü']
  else if c = 'Ö' then ['ö']
  else if c = 'Ç' then ['ç']
  else [c]

def caseFoldList (cs : List Char) : List Char := (cs.map caseFoldChar).flatten

/-- The `str.maketrans` Turkish transliteration table of `norm_key`. -/
def trChar (c : Char) : Char :=
  if c = 'ı' then 'i' else if c = 'İ' then 'i'
  else if c = 'ş' then 's' else if c = 'Ş' then 's'
  else if c = 'ğ' then 'g' else if c = 'Ğ' then 'g'
  else if c = 'ü' then 'u' else if c = 'Ü' then 'u'
  else if c = 'ö' then 'o' else if c = 'Ö' then 'o'
  else if c = 'ç' then 'c' else if c = 'Ç' then 'c'
  else c

/-- The normalization pipeline of `norm_key` before the synonym lookup:
strip, casefold, transliterate, `[^a-z0-9]+ → " "`, `\s+ → " "`, strip. -/
def norm_core (cs : List Char) : List Char :=
  pstrip (collapseWs (subNA ((caseFoldList (pstrip cs)).map trChar)))

/-- Association-list lookup, modelling `dict` lookup / `dict.get`. -/
def alookup {β : Type} : List (String × β) → String → Option β
  | [], _ => none
  | (k, v) :: rest, s => if s = k then some v else alookup rest s

/-- The synonym table of `norm_key`, in source order. -/
def synTable : List (String × String) :=
  [("c reaktif protein", "crp"),
   ("c reaktif protein crp", "crp"),
   ("crp turbidimetrik", "crp"),
   ("hs crp", "hs crp"),
   ("aclik kan sekeri", "glukoz aclik"),
   ("glukoz aclik kan sekeri", "glukoz aclik"),
   ("glukoz", "glukoz"),
   ("hba1c", "hba1c"),
   ("hb a1c", "hba1c"),
   ("vitamin d", "25 oh vitamin d"),
   ("25 oh vitamin d", "25 oh vitamin d"),
   ("b12", "vitamin b12"),
   ("vitamin b12", "vitamin b12"),
   ("total kolesterol", "kolesterol total"),
   ("kolesterol", "kolesterol total"),
   ("ldl kolesterol", "ldl"),
   ("hdl kolesterol", "hdl"),
   ("trigliserid", "trigliserid"),
   ("trigliserit", "trigliserid"),
   ("alt", "alt"),
   ("ast", "ast"),
   ("ggt", "ggt"),
   ("tsh", "tsh"),
   ("ferritin", "ferritin"),
   ("demir", "demir"),
   ("ure", "ure"),
   ("kreatinin", "kreatinin"),
   ("egfr", "egfr"),
   ("uric acid", "urik asit"),
   ("urik asit", "urik asit"),
   ("hemoglobin", "hemoglobin"),
   ("hb", "hemoglobin")]

/-- `norm_key` of `clinical_intelligence.py`. -/
def norm_key (name : String) : String :=
  let s := String.mk (norm_core name.data)
  (alookup synTable s).getD s

/-- `Insight` of `clinical_intelligence.py`. -/
structure Insight where
  severity : String
  title : String
  detail : String
deriving DecidableEq, Repr

/-- `sev_order.get(severity, 9)`. -/
def sevRank (s : String) : ℤ :=
  if s = "critical" then 0 else if s = "warn" then 1 else if s = "info" then 2 else 9

/-- Stable insertion into a key-sorted list (the element goes before every
later element whose key is ≥ its own): the building block of a stable sort. -/
def insertK {α : Type} (key : α → ℤ) (a : α) : List α → List α
  | [] => [a]
  | b :: bs => if key a ≤ key b then a :: b :: bs else b :: insertK key a bs

/-- Stable sort by an integer key, modelling Python's stable `list.sort(key=...)`. -/
def sortK {α : Type} (key : α → ℤ) : List α → List α
  | [] => []
  | a :: as => insertK key a (sortK key as)

/-- One lab result row as `lab_insights` receives it (a dict with at least
`test_name`, `result_value`, `status`). -/
structure LabRowD where
  test_name : String
  result_value : Option ℚ
  status : Option String
deriving DecidableEq, Repr

/-- Python `x or y` on optional numbers (`None` and `0.0` are falsy). -/
def pyOr (x y : Option ℚ) : Option ℚ :=
  match x with
  | none => y
  | some v => if v = 0 then y else some v

/-- Python `(s or default)` on optional strings (`None` and `""` are falsy). -/
def pyOrStr (x : Option String) (d : String) : String :=
  match x with
  | none => d
  | some s => if s = "" then d else s

/-- The clinical thresholds record (`get_clinical_thresholds` result). -/
structure Th where
  weight_rate_info : ℚ
  weight_rate_warn : ℚ
  waist_info : ℚ
  waist_warn : ℚ
  crp_warn : ℚ
  hba1c_warn : ℚ
  hba1c_critical : ℚ
  ldl_warn : ℚ
  ldl_critical : ℚ
deriving DecidableEq, Repr

/-- `DEFAULT_CLINICAL_THRESHOLDS` of `settings_service.py`. -/
def DEFAULT_CLINICAL_THRESHOLDS : Th :=
  ⟨1, 2, 95, 110, 10, 57/10, 13/2, 160, 190⟩

/-- The `by_key` construction of `lab_insights`: first row wins, except that a
row with a numeric value replaces a stored row without one. -/
def byKeyUpd (m : List (String × LabRowD)) (r : LabRowD) : List (String × LabRowD) :=
  let k := norm_key r.test_name
  match alookup m k with
  | none => m ++ [(k, r)]
  | some cur =>
    if cur.result_value = none ∧ r.result_value ≠ none then
      m.map (fun kv => if kv.1 = k then (k, r) else kv)
    else m

def byKey (rows : List LabRowD) : List (String × LabRowD) := rows.foldl byKeyUpd []

/-- The rule pass of `lab_insights`, in source order, before the severity sort. -/
def lab_insights_core (th : Th) (rows : List LabRowD) : List Insight :=
  let bk := byKey rows
  let getv : String → Option ℚ := fun k => (alookup bk k).bind (fun r => r.result_value)
  let stat : String → String := fun k =>
    match alookup bk k with
    | none => "unknown"
    | some r => pyOrStr r.status "unknown"
  let g := pyOr (getv "glukoz aclik") (getv "glukoz")
  let glyc :=
    match getv "hba1c" with
    | some a1c =>
      if th.hba1c_critical ≤ a1c then
        [Insight.mk "critical" ("HbA1c yüksek (" ++ fmtFixed 2 a1c ++ ").")
          "Diyabet aralığı olabilir. Klinik doğrulama ve hekim değerlendirmesi önerilir."]
      else if th.hba1c_warn ≤ a1c then
        [Insight.mk "warn" ("HbA1c sınırda/yüksek (" ++ fmtFixed 2 a1c ++ ").")
          "Prediyabet/insülin direnci açısından yaşam tarzı (lif, protein dengesi, aktivite, uyku) gözden geçirilebilir."]
      else
        [Insight.mk "info" ("HbA1c normal (" ++ fmtFixed 2 a1c ++ ").")
          "Glikoz kontrolü iyi görünüyor; sürdürülebilir beslenme alışkanlığıyla devam."]
    | none =>
      match g with
      | some gv =>
        if 60 ≤ gv ∧ gv ≤ 200 then
          if 126 ≤ gv then
            [Insight.mk "critical" ("Açlık glukozu yüksek (" ++ fmtFixed 0 gv ++ ").")
              "Diyabet aralığı olabilir. Klinik doğrulama ve hekim değerlendirmesi önerilir."]
          else if 100 ≤ gv then
            [Insight.mk "warn" ("Açlık glukozu sınırda/yüksek (" ++ fmtFixed 0 gv ++ ").")
              "Prediyabet/insülin direnci açısından beslenme ve aktivite düzeni planlanabilir."]
          else
            [Insight.mk "info" ("Açlık glukozu normal (" ++ fmtFixed 0 gv ++ ").")
              "Glikoz kontrolü iyi görünüyor."]
        else []
      | none => []
  let ldlB :=
    match getv "ldl" with
    | some v =>
      if 40 ≤ v ∧ v ≤ 250 then
        if th.ldl_critical ≤ v then
          [Insight.mk "critical" ("LDL çok yüksek (" ++ fmtFixed 0 v ++ ").")
            "Ailevi hiperkolesterolemi dahil riskler için hekim değerlendirmesi gerekir."]
        else if th.ldl_warn ≤ v then
          [Insight.mk "warn" ("LDL yüksek (" ++ fmtFixed 0 v ++ ").")
            "Doymuş yağ/ultra-işlenmiş gıda azaltımı, lif artırımı ve kilo/aktivite planı düşünülebilir."]
        else if 130 ≤ v then
          [Insight.mk "warn" ("LDL sınırda (" ++ fmtFixed 0 v ++ ").")
            "Kalp-damar riski profiline göre hedefler belirlenebilir."]
        else []
      else []
    | none => []
  let hdlB :=
    match getv "hdl" with
    | some v =>
      if 10 ≤ v ∧ v ≤ 120 then
        if v < 40 then
          [Insight.mk "warn" ("HDL düşük (" ++ fmtFixed 0 v ++ ").")
            "Düzenli aerobik aktivite, kilo yönetimi ve sigara varsa bırakma desteği yararlı olabilir."]
        else []
      else []
    | none => []
  let tgB :=
    match getv "trigliserid" with
    | some v =>
      if 30 ≤ v ∧ v ≤ 800 then
        if 500 ≤ v then
          [Insight.mk "critical" ("Trigliserid çok yüksek (" ++ fmtFixed 0 v ++ ").")
            "Pankreatit riski açısından acil hekim değerlendirmesi gerekebilir."]
        else if 200 ≤ v then
          [Insight.mk "warn" ("Trigliserid yüksek (" ++ fmtFixed 0 v ++ ").")
            "Şeker/rafine karbonhidrat azaltımı, alkol varsa kısıtlama, omega-3 kaynakları ve aktivite planı düşünülebilir."]
        else if 150 ≤ v then
          [Insight.mk "warn" ("Trigliserid sınırda (" ++ fmtFixed 0 v ++ ").")
            "Karbonhidrat kalitesi ve total enerji dengesi gözden geçirilebilir."]
        else []
      else []
    | none => []
  let totB :=
    match getv "kolesterol total" with
    | some v =>
      if 80 ≤ v ∧ v ≤ 400 then
        if 240 ≤ v then
          [Insight.mk "warn" ("Total kolesterol yüksek (" ++ fmtFixed 0 v ++ ").")
            "LDL/HDL/TG ile birlikte değerlendirilmelidir."]
        else []
      else []
    | none => []
  let liver := (["alt", "ast", "ggt"].zip ["ALT", "AST", "GGT"]).foldr
    (fun kl acc =>
      (if stat kl.1 = "high" then
        [Insight.mk "warn"
          (kl.2 ++ " yüksek (" ++
            (match getv kl.1 with | none => "" | some v => fmtFixed 0 v) ++ ").")
          "Karaciğer yağlanması/alkol/ilaç etkisi gibi nedenler için klinik değerlendirme gerekir."]
      else []) ++ acc) []
  let thyroid :=
    match getv "tsh" with
    | some v =>
      if 10 ≤ v then
        [Insight.mk "critical" ("TSH yüksek (" ++ fmtFixed 2 v ++ ").")
          "Hipotiroidi olasılığı için hekim değerlendirmesi önerilir."]
      else if 9/2 < v then
        [Insight.mk "warn" ("TSH yüksek (" ++ fmtFixed 2 v ++ ").")
          "Tiroid fonksiyonları için klinik doğrulama önerilir."]
      else if v < 1/10 then
        [Insight.mk "critical" ("TSH çok düşük (" ++ fmtFixed 2 v ++ ").")
          "Hipertiroidi olasılığı için hekim değerlendirmesi önerilir."]
      else if v < 2/5 then
        [Insight.mk "warn" ("TSH düşük (" ++ fmtFixed 2 v ++ ").")
          "Tiroid fonksiyonları için klinik doğrulama önerilir."]
      else []
    | none => []
  let ferr :=
    match getv "ferritin" with
    | some v =>
      if v < 15 then
        [Insight.mk "warn" ("Ferritin düşük (" ++ fmtFixed 1 v ++ ").")
          "Demir depoları düşük olabilir. Diyet (heme/non-heme demir), C vitamini eşleştirme ve hekim değerlendirmesi düşünülür."]
      else []
    | none => []
  let vitd :=
    match getv "25 oh vitamin d" with
    | some v =>
      if v < 10 then
        [Insight.mk "warn" ("Vitamin D çok düşük (" ++ fmtFixed 1 v ++ ").")
          "Güneşlenme ve hekim kontrolünde destek planı değerlendirilebilir."]
      else if v < 20 then
        [Insight.mk "warn" ("Vitamin D düşük (" ++ fmtFixed 1 v ++ ").")
          "Yeterli güneşlenme ve hekim kontrolünde destek değerlendirilebilir."]
      else if v < 30 then
        [Insight.mk "info" ("Vitamin D sınırda (" ++ fmtFixed 1 v ++ ").")
          "Sürdürülebilir düzey için yaşam tarzı destekleri planlanabilir."]
      else []
    | none => []
  let b12 :=
    match getv "vitamin b12" with
    | some v =>
      if v < 200 then
        [Insight.mk "warn" ("B12 düşük (" ++ fmtFixed 0 v ++ ").")
          "Hayvansal kaynak alımı, emilim sorunları ve hekim kontrolünde destek planı değerlendirilebilir."]
      else []
    | none => []
  let crp :=
    match pyOr (getv "crp") (getv "hs crp") with
    | some v =>
      if stat "crp" = "high" ∨ th.crp_warn < v then
        [Insight.mk "warn" ("CRP yüksek (" ++ fmtFixed 1 v ++ ").")
          "Akut enfeksiyon/iltihap olabilir. Klinik tablo ile birlikte değerlendirilmelidir."]
      else []
    | none => []
  let egfrB :=
    match getv "egfr" with
    | some v =>
      if v < 60 then
        [Insight.mk "warn" ("eGFR düşük (" ++ fmtFixed 0 v ++ ").")
          "Böbrek fonksiyonu için hekim değerlendirmesi gerekir (protein/ilaç/hipertansiyon vb.)."]
      else []
    | none => []
  let kreatB :=
    match getv "kreatinin" with
    | some v =>
      if stat "kreatinin" = "high" then
        [Insight.mk "warn" ("Kreatinin yüksek (" ++ fmtFixed 2 v ++ ").")
          "Böbrek fonksiyonu/hidrasyon/ilaçlar ile birlikte değerlendirme önerilir."]
      else []
    | none => []
  let out := glyc ++ ldlB ++ hdlB ++ tgB ++ totB ++ liver ++ thyroid ++ ferr ++ vitd ++
    b12 ++ crp ++ egfrB ++ kreatB
  if out = [] ∧ rows ≠ [] then
    [Insight.mk "info" "Belirgin bir otomatik uyarı bulunamadı."
      "Değerleri klinik bağlam ve danışan öyküsüyle birlikte yorumlayın."]
  else out

/-- `lab_insights`: the rule pass followed by the stable severity sort. -/
def lab_insights (th : Th) (rows : List LabRowD) : List Insight :=
  sortK (fun i => sevRank i.severity) (lab_insights_core th rows)

/-- `Measurement` of `measurements_service.py`, restricted to the fields the
trend analyzer reads; `measured_at` ("YYYY-MM-DD") is modelled as the day
number the date denotes. -/
structure Measurement where
  measured_at : ℤ
  height_cm : Option ℚ
  weight_kg : Option ℚ
  waist_cm : Option ℚ
deriving DecidableEq, Repr

instance : Inhabited Measurement := ⟨⟨0, none, none, none⟩⟩

/-- `Measurement.bmi` (`if not height_cm or not weight_kg: None`). -/
def Measurement.bmi (m : Measurement) : Option ℚ :=
  match m.height_cm, m.weight_kg with
  | some h, some w =>
    if h = 0 ∨ w = 0 then none
    else
      let hm := h / 100
      if hm ≤ 0 then none else some (w / (hm * hm))
  | _, _ => none

/-- The single insight returned when fewer than 2 weight-bearing points exist. -/
def needDataInsight : Insight :=
  ⟨"info", "Trend analizi için en az 2 ölçüm gerekir.",
   "Yeni ölçüm girildikçe trend uyarıları otomatik oluşur."⟩

/-- The reassuring insight appended when no trend rule fired. -/
def reassureInsight : Insight :=
  ⟨"info", "Ölçüm trendinde belirgin risk/uyarı bulunamadı.",
   "Düzenli ölçüm ve notlarla takip sürdürülebilir hale gelir."⟩

/-- The trend rules of `measurement_alerts`, applied to the date-ascending,
weight-bearing history (weight change, BMI band, waist band, 3-point trend),
in source order. -/
def measurement_rules (th : Th) (msSorted : List Measurement) : List Insight :=
  match msSorted.reverse with
  | latest :: prev :: _ =>
    (match latest.weight_kg, prev.weight_kg with
     | some lw, some pw =>
       if lw ≠ 0 ∧ pw ≠ 0 then
         let dw := lw - pw
         let days := if latest.measured_at - prev.measured_at = 0 then 1
           else latest.measured_at - prev.measured_at
         let rate := dw / (days : ℚ) * 7
         if th.weight_rate_warn ≤ |rate| then
           [Insight.mk "warn"
             ("Kilo değişimi hızlı (" ++ fmtS1 dw ++ " kg / " ++ intStr days ++ "g).")
             "Hızlı değişimler sıvı/ödem, uyum veya ölçüm koşulları kaynaklı olabilir; plan ve takip sıklığı gözden geçirilebilir."]
         else if th.weight_rate_info ≤ |rate| then
           [Insight.mk "info"
             ("Kilo değişimi belirgin (" ++ fmtS1 dw ++ " kg / " ++ intStr days ++ "g).")
             "Hedefe göre sürdürülebilir hız değerlendirmesi yapılabilir."]
         else []
       else []
     | _, _ => [])
    ++ (match latest.bmi with
        | some b =>
          if 35 ≤ b then
            [Insight.mk "warn" ("BMI yüksek (" ++ fmtFixed 1 b ++ ").")
              "Kardiyometabolik risk profiline göre planlama ve hekim iş birliği gerekebilir."]
          else if 30 ≤ b then
            [Insight.mk "warn" ("Obezite aralığı BMI (" ++ fmtFixed 1 b ++ ").")
              "Yaşam tarzı, uyku, stres ve aktivite ile birlikte sürdürülebilir kilo yönetimi planı önerilir."]
          else if 25 ≤ b then
            [Insight.mk "info" ("Fazla kilo aralığı BMI (" ++ fmtFixed 1 b ++ ").")
              "Hedefler danışan beklentisi ve klinik duruma göre netleştirilebilir."]
          else []
        | none => [])
    ++ (match latest.waist_cm with
        | some wc =>
          if wc = 0 then []
          else if th.waist_warn ≤ wc then
            [Insight.mk "warn" ("Bel çevresi yüksek (" ++ fmtFixed 0 wc ++ " cm).")
              "Santral obezite açısından risk artabilir; beslenme + aktivite planı ve takip önerilir."]
          else if th.waist_info ≤ wc then
            [Insight.mk "info" ("Bel çevresi izlenmeli (" ++ fmtFixed 0 wc ++ " cm).")
              "Kilo/yağ dağılımı hedefleri ile birlikte takip edilebilir."]
          else []
        | none => [])
    ++ (if 3 ≤ msSorted.length then
          match (lastN 3 msSorted).filterMap (fun m =>
            match m.weight_kg with
            | some w => if w = 0 then none else some w
            | none => none) with
          | [w0, w1, w2] =>
            if w1 < w2 ∧ w0 < w1 then
              [Insight.mk "warn" "Son 3 ölçümde kilo artış trendi var."
                "Uygunluk, toplam enerji dengesi ve aktivite planı gözden geçirilebilir."]
            else if w2 < w1 ∧ w1 < w0 then
              [Insight.mk "info" "Son 3 ölçümde kilo düşüş trendi var."
                "Hız ve sürdürülebilirlik hedefe göre değerlendirilebilir."]
            else []
          | _ => []
        else [])
  | _ => []

/-- `measurement_alerts` on an explicit measurement history: filter to
weight-bearing points, require two of them, sort by date, run the rules,
fall back to the reassuring insight, sort by severity. -/
def measurement_alerts (th : Th) (ms : List Measurement) : List Insight :=
  let ms2 := ms.filter (fun m => decide (0 < (m.weight_kg.getD 0)))
  if ms2.length < 2 then [needDataInsight]
  else
    let msSorted := sortK (fun m => m.measured_at) ms2
    let out := measurement_rules th msSorted
    sortK (fun i => sevRank i.severity)
      (if out = [] then [reassureInsight] else out)

/-- The list `measurement_alerts` holds just before its final severity sort
(the emission order of the rules, with the two fallback paths). -/
def measurement_alerts_pre (th : Th) (ms : List Measurement) : List Insight :=
  let ms2 := ms.filter (fun m => decide (0 < (m.weight_kg.getD 0)))
  if ms2.length < 2 then [needDataInsight]
  else
    let out := measurement_rules th (sortK (fun m => m.measured_at) ms2)
    if out = [] then [reassureInsight] else out

/-- The mode/bounds invariant of `RefRange` as the code maintains it:
"range" carries both bounds, "lt" a high bound, "gt" a low bound,
"unknown" no bounds (nothing relates `low` to `high` in mode "range"). -/
def refModeInvariant (r : RefRange) : Bool :=
  if r.mode = "range" then r.low.isSome && r.high.isSome
  else if r.mode = "lt" then r.high.isSome
  else if r.mode = "gt" then r.low.isSome
  else r.low.isNone && r.high.isNone

/-- `pat` occurs at the start of `s`. -/
def matchesAt : List Char → List Char → Bool
  | [], _ => true
  | _ :: _, [] => false
  | p :: ps, c :: cs => p = c && matchesAt ps cs

/-- `pat` occurs somewhere inside `s` (Python `pat in s`). -/
def containsSeg (pat : List Char) : List Char → Bool
  | [] => matchesAt pat []
  | c :: cs => matchesAt pat (c :: cs) || containsSeg pat cs

/-- The row extracted from the line `"Glukoz 148 mg/dL 70 - 100"`. -/
def glukozRow : LabRow :=
  ⟨"Glukoz".data, "148".data, some 148, "mg/dL".data, "70 - 100".data,
   ⟨"range", some 70, some 100, "70 - 100".data⟩, "high"⟩

/-- Characters allowed in a normalized-key body: lowercase alphanumerics and
spaces, with no two spaces adjacent. -/
def midOK : List Char → Bool
  | [] => true
  | [c] => isLowAlnum c || c == ' '
  | c :: d :: r => ((isLowAlnum c || c == ' ') && !(c == ' ' && d == ' ')) && midOK (d :: r)

/-- A fully normalized key: `midOK` with no leading or trailing space. -/
def goodNorm (t : List Char) : Bool :=
  midOK t && !(t.head? == some ' ') && !(t.getLast? == some ' ')

/-! ### Character-class and stripping lemmas -/

theorem space_not_digit {c : Char} (h : isSpaceCh c = true) : isDigitCh c = false := by
  simp only [isSpaceCh, Bool.or_eq_true, decide_eq_true_eq] at h
  cases hd : isDigitCh c with
  | false => rfl
  | true =>
    simp only [isDigitCh, Bool.and_eq_true, decide_eq_true_eq] at hd
    exfalso
    omega

theorem digit_not_space {c : Char} (h : isDigitCh c = true) : isSpaceCh c = false := by
  simp only [isDigitCh, Bool.and_eq_true, decide_eq_true_eq] at h
  cases hs : isSpaceCh c with
  | false => rfl
  | true =>
    simp only [isSpaceCh, Bool.or_eq_true, decide_eq_true_eq] at hs
    exfalso
    omega

theorem lstrip_all_space {ws : List Char} (h : ∀ c ∈ ws, isSpaceCh c = true) :
    lstrip ws = [] := by
  induction ws with
  | nil => rfl
  | cons c cs ih =>
    simp only [lstrip, List.dropWhile]
    rw [h c (by simp)]
    exact ih (fun d hd => h d (by simp [hd]))

theorem lstrip_cons_nospace {c : Char} {cs : List Char} (h : isSpaceCh c = false) :
    lstrip (c :: cs) = c :: cs := by
  simp only [lstrip, List.dropWhile, h]

theorem lstrip_append (xs ys : List Char) :
    lstrip (xs ++ ys) = if lstrip xs = [] then lstrip ys else lstrip xs ++ ys := by
  induction xs with
  | nil => simp [lstrip]
  | cons c cs ih =>
    cases hc : isSpaceCh c with
    | true =>
      have h1 : lstrip (c :: (cs ++ ys)) = lstrip (cs ++ ys) := by
        simp [lstrip, List.dropWhile_cons, hc]
      have h2 : lstrip (c :: cs) = lstrip cs := by
        simp [lstrip, List.dropWhile_cons, hc]
      rw [List.cons_append, h1, h2, ih]
    | false =>
      have h1 : lstrip (c :: (cs ++ ys)) = c :: (cs ++ ys) := by
        simp [lstrip, List.dropWhile_cons, hc]
      have h2 : lstrip (c :: cs) = c :: cs := by
        simp [lstrip, List.dropWhile_cons, hc]
      rw [List.cons_append, h1, h2, if_neg (by simp)]
      rfl

theorem lstrip_head_nospace {cs : List Char} {c : Char} {l : List Char}
    (h : lstrip cs = c :: l) : isSpaceCh c = false := by
  induction cs with
  | nil => simp [lstrip] at h
  | cons d ds ih =>
    rw [lstrip, List.dropWhile_cons] at h
    cases hd : isSpaceCh d with
    | true => simp only [hd] at h; exact ih h
    | false =>
      simp only [hd, Bool.false_eq_true, if_false, List.cons.injEq] at h
      rw [← h.1]; exact hd

theorem lstrip_idem (cs : List Char) : lstrip (lstrip cs) = lstrip cs := by
  cases h : lstrip cs with
  | nil => rfl
  | cons c l => exact lstrip_cons_nospace (lstrip_head_nospace h)

theorem rstrip_decomp (cs : List Char) :
    ∃ ws, cs = rstrip cs ++ ws ∧ ∀ c ∈ ws, isSpaceCh c = true := by
  refine ⟨(cs.reverse.takeWhile isSpaceCh).reverse, ?_, ?_⟩
  · have h := List.takeWhile_append_dropWhile (p := isSpaceCh) (l := cs.reverse)
    have h2 := congrArg List.reverse h
    rw [List.reverse_append, List.reverse_reverse] at h2
    exact h2.symm
  · intro c hc
    rw [List.mem_reverse] at hc
    exact List.mem_takeWhile_imp hc

theorem rstrip_head {cs : List Char} {c : Char} {l : List Char} (h : rstrip cs = c :: l) :
    ∃ t, cs = c :: t := by
  obtain ⟨ws, hws, -⟩ := rstrip_decomp cs
  rw [h] at hws
  exact ⟨l ++ ws, by simpa using hws⟩

theorem dropWhile_idem_own (p : Char → Bool) (l : List Char) :
    List.dropWhile p (List.dropWhile p l) = List.dropWhile p l := by
  induction l with
  | nil => rfl
  | cons c cs ih =>
    rw [List.dropWhile_cons]
    cases hc : p c with
    | true => simpa using ih
    | false => simp [List.dropWhile_cons, hc]

theorem rstrip_idem (cs : List Char) : rstrip (rstrip cs) = rstrip cs := by
  unfold rstrip
  rw [List.reverse_reverse]
  congr 1
  exact dropWhile_idem_own _ _

theorem pstrip_idem (cs : List Char) : pstrip (pstrip cs) = pstrip cs := by
  unfold pstrip
  have h1 : lstrip (rstrip (lstrip cs)) = rstrip (lstrip cs) := by
    cases h : rstrip (lstrip cs) with
    | nil => simp [lstrip]
    | cons c l =>
      obtain ⟨t, ht⟩ := rstrip_head h
      have hc : isSpaceCh c = false := lstrip_head_nospace ht
      exact lstrip_cons_nospace hc
  rw [h1, rstrip_idem]

theorem pstrip_decomp_of_nospace_head {c : Char} {t : List Char}
    (hc : isSpaceCh c = false) :
    ∃ ws, c :: t = pstrip (c :: t) ++ ws ∧ ∀ d ∈ ws, isSpaceCh d = true := by
  unfold pstrip
  rw [lstrip_cons_nospace hc]
  exact rstrip_decomp (c :: t)

/-! ### Digit-run lemmas -/

theorem takeDigits_append_eq (cs : List Char) :
    cs = (takeDigits cs).1 ++ (takeDigits cs).2 := by
  induction cs with
  | nil => rfl
  | cons c l ih =>
    simp only [takeDigits]
    cases h : isDigitCh c with
    | true => simpa using ih
    | false => simp

theorem takeDigits_fst_digits (cs : List Char) :
    ∀ c ∈ (takeDigits cs).1, isDigitCh c = true := by
  induction cs with
  | nil => simp [takeDigits]
  | cons c l ih =>
    simp only [takeDigits]
    cases h : isDigitCh c with
    | true =>
      simp only [h, if_true]
      intro d hd
      rcases List.mem_cons.mp hd with h1 | h1
      · rw [h1]; exact h
      · exact ih d h1
    | false => simp

theorem takeDigits_snd_head {cs : List Char} {d : Char} {l : List Char}
    (h : (takeDigits cs).2 = d :: l) : isDigitCh d = false := by
  induction cs with
  | nil => simp [takeDigits] at h
  | cons c t ih =>
    simp only [takeDigits] at h
    cases hc : isDigitCh c with
    | true => simp only [hc] at h; exact ih h
    | false =>
      simp only [hc, Bool.false_eq_true, if_false, List.cons.injEq] at h
      rw [← h.1]; exact hc

theorem takeDigits_all_digits {cs : List Char} (h : ∀ c ∈ cs, isDigitCh c = true) :
    takeDigits cs = (cs, []) := by
  induction cs with
  | nil => rfl
  | cons c l ih =>
    simp only [takeDigits]
    rw [h c (by simp), ih (fun d hd => h d (by simp [hd]))]
    simp

theorem takeDigits_append_nondigit {rest : List Char}
    (hr : ∀ c l, rest = c :: l → isDigitCh c = false) :
    ∀ ds : List Char, (∀ c ∈ ds, isDigitCh c = true) → takeDigits (ds ++ rest) = (ds, rest) := by
  intro ds
  induction ds with
  | nil =>
    intro _
    cases hrest : rest with
    | nil => simp [takeDigits]
    | cons c l => simp [takeDigits, hr c l hrest]
  | cons c l ih =>
    intro hds
    simp only [List.cons_append, takeDigits, List.append_eq]
    rw [hds c (by simp), ih (fun d hd => hds d (by simp [hd]))]
    simp

theorem takeDigits_ws_append {xs ws : List Char} (hws : ∀ c ∈ ws, isSpaceCh c = true) :
    takeDigits (xs ++ ws) = ((takeDigits xs).1, (takeDigits xs).2 ++ ws) := by
  induction xs with
  | nil =>
    cases ws with
    | nil => rfl
    | cons c l =>
      simp only [List.nil_append, takeDigits, space_not_digit (hws c (by simp))]
      simp [takeDigits]
  | cons c l ih =>
    simp only [List.cons_append, takeDigits, List.append_eq]
    cases h : isDigitCh c with
    | true => rw [ih]; simp
    | false => simp

/-! ### Number-matcher lemmas -/

theorem digit_ne_plus {c : Char} (h : isDigitCh c = true) : c ≠ '+' := by
  intro he; rw [he] at h; exact absurd h (by decide)

theorem digit_ne_minus {c : Char} (h : isDigitCh c = true) : c ≠ '-' := by
  intro he; rw [he] at h; exact absurd h (by decide)

theorem digit_ne_comma {c : Char} (h : isDigitCh c = true) : c ≠ ',' := by
  intro he; rw [he] at h; exact absurd h (by decide)

theorem digit_ne_dot {c : Char} (h : isDigitCh c = true) : c ≠ '.' := by
  intro he; rw [he] at h; exact absurd h (by decide)

theorem sep_not_digit {c : Char} (h : c = '.' ∨ c = ',') : isDigitCh c = false := by
  rcases h with h | h <;> rw [h] <;> decide

theorem NumShape_ne_nil {m : List Char} (h : NumShape m) : m ≠ [] := by
  obtain ⟨ds, hne, -, hshape⟩ := h
  rcases hshape with rfl | ⟨sep, fs, -, -, -, rfl⟩
  · exact hne
  · rcases ds with _ | ⟨d, ds'⟩
    · exact absurd rfl hne
    · simp

theorem NumShape_head_digit {m : List Char} (h : NumShape m) :
    ∃ d t, m = d :: t ∧ isDigitCh d = true := by
  obtain ⟨ds, hne, hdig, hshape⟩ := h
  rcases ds with _ | ⟨d, ds'⟩
  · exact absurd rfl hne
  · rcases hshape with rfl | ⟨sep, fs, -, -, -, rfl⟩
    · exact ⟨d, ds', rfl, hdig d (by simp)⟩
    · exact ⟨d, ds' ++ sep :: fs, by simp, hdig d (by simp)⟩

theorem matchNumCore_spec {cs m r : List Char} (h : matchNumCore cs = some (m, r)) :
    cs = m ++ r ∧ NumShape m := by
  have hsplit := takeDigits_append_eq cs
  have hdig := takeDigits_fst_digits cs
  unfold matchNumCore at h
  rcases htd : takeDigits cs with ⟨ds, rx⟩
  rw [htd] at h hsplit hdig
  simp only at hsplit hdig
  cases ds with
  | nil => simp at h
  | cons d ds' =>
    cases rx with
    | nil =>
      simp only [List.append_nil] at hsplit
      simp at h
      obtain ⟨hm, hr⟩ := h
      subst hm; subst hr
      exact ⟨by simp [hsplit], ⟨d :: ds', by simp, hdig, Or.inl rfl⟩⟩
    | cons c r2 =>
      dsimp only at h
      by_cases hc : c = '.' ∨ c = ','
      · rw [if_pos hc] at h
        have hsplit2 := takeDigits_append_eq r2
        have hdig2 := takeDigits_fst_digits r2
        rcases htd2 : takeDigits r2 with ⟨fs, r3⟩
        rw [htd2] at h hsplit2 hdig2
        simp only at hsplit2 hdig2
        cases fs with
        | nil =>
          simp at h
          obtain ⟨hm, hr⟩ := h
          subst hm; subst hr
          exact ⟨hsplit, ⟨d :: ds', by simp, hdig, Or.inl rfl⟩⟩
        | cons f fs' =>
          simp at h
          obtain ⟨hm, hr⟩ := h
          subst hm; subst hr
          constructor
          · rw [hsplit, hsplit2]
            simp
          · exact ⟨d :: ds', by simp, hdig,
              Or.inr ⟨c, f :: fs', hc, by simp, hdig2, rfl⟩⟩
      · rw [if_neg hc] at h
        simp at h
        obtain ⟨hm, hr⟩ := h
        subst hm; subst hr
        exact ⟨hsplit, ⟨d :: ds', by simp, hdig, Or.inl rfl⟩⟩

theorem matchSignedNum_spec {cs m r : List Char} (h : matchSignedNum cs = some (m, r)) :
    cs = m ++ r ∧ (NumShape m ∨ ∃ m', m = '-' :: m' ∧ NumShape m') := by
  cases cs with
  | nil => simp [matchSignedNum] at h
  | cons c cs' =>
    unfold matchSignedNum at h
    dsimp only at h
    by_cases hc : c = '-'
    · rw [if_pos hc] at h
      rcases hmc : matchNumCore cs' with _ | ⟨m', r'⟩
      · rw [hmc] at h; simp at h
      · rw [hmc] at h
        simp at h
        obtain ⟨hm, hr⟩ := h
        obtain ⟨happ, hshape⟩ := matchNumCore_spec hmc
        subst hc
        rw [← hm, ← hr]
        exact ⟨by rw [happ]; rfl, Or.inr ⟨m', rfl, hshape⟩⟩
    · rw [if_neg hc] at h
      obtain ⟨happ, hshape⟩ := matchNumCore_spec h
      exact ⟨happ, Or.inl hshape⟩

theorem matchSignedNum_ne_nil {cs m r : List Char} (h : matchSignedNum cs = some (m, r)) :
    m ≠ [] := by
  obtain ⟨-, hshape⟩ := matchSignedNum_spec h
  rcases hshape with hn | ⟨m', rfl, -⟩
  · exact NumShape_ne_nil hn
  · simp

theorem matchSignedNum_head {cs m r : List Char} (h : matchSignedNum cs = some (m, r)) :
    ∃ d t, cs = d :: t ∧ (d = '-' ∨ isDigitCh d = true) := by
  obtain ⟨happ, hshape⟩ := matchSignedNum_spec h
  rcases hshape with hn | ⟨m', rfl, hn⟩
  · obtain ⟨d, t, rfl, hd⟩ := NumShape_head_digit hn
    exact ⟨d, t ++ r, by simp [happ], Or.inr hd⟩
  · exact ⟨'-', m' ++ r, by simp [happ], Or.inl rfl⟩

/-! ### `to_float` succeeds on every capture -/

theorem map_comma_digits {l : List Char} (h : ∀ c ∈ l, isDigitCh c = true) :
    l.map (fun c => if c = ',' then '.' else c) = l := by
  induction l with
  | nil => rfl
  | cons c cs ih =>
    simp only [List.map_cons]
    rw [if_neg (digit_ne_comma (h c (by simp))), ih (fun d hd => h d (by simp [hd]))]

theorem pyFloatMag_digits {ds : List Char} (hne : ds ≠ [])
    (h : ∀ c ∈ ds, isDigitCh c = true) : (pyFloatMag ds).isSome = true := by
  unfold pyFloatMag
  rw [takeDigits_all_digits h]
  dsimp only
  rw [if_neg hne]
  rfl

theorem pyFloatMag_frac {ds fs : List Char} (hne : ds ≠ [])
    (hds : ∀ c ∈ ds, isDigitCh c = true) (hfs : ∀ c ∈ fs, isDigitCh c = true) :
    (pyFloatMag (ds ++ '.' :: fs)).isSome = true := by
  unfold pyFloatMag
  rw [takeDigits_append_nondigit
    (by intro c l hcl; injection hcl with h1 _; rw [← h1]; decide) ds hds]
  dsimp only
  rw [if_pos rfl, takeDigits_all_digits hfs]
  dsimp only
  rw [if_neg (by simp [hne])]
  rfl

theorem pyFloat_digit_head {d : Char} {t : List Char} (hd : isDigitCh d = true) :
    pyFloat (d :: t) = pyFloatMag (d :: t) := by
  unfold pyFloat
  dsimp only
  rw [if_neg (digit_ne_plus hd), if_neg (digit_ne_minus hd)]

theorem pyFloat_minus (t : List Char) :
    pyFloat ('-' :: t) = (pyFloatMag t).map (fun q => -q) := by
  unfold pyFloat
  dsimp only
  rw [if_neg (by decide), if_pos rfl]

theorem pyFloat_plus (t : List Char) : pyFloat ('+' :: t) = pyFloatMag t := by
  unfold pyFloat
  dsimp only
  rw [if_pos rfl]

theorem pyFloatMag_mapped_NumShape {m : List Char} (h : NumShape m) :
    (pyFloatMag (m.map (fun c => if c = ',' then '.' else c))).isSome = true ∧
    ∃ d t, m.map (fun c => if c = ',' then '.' else c) = d :: t ∧ isDigitCh d = true := by
  obtain ⟨ds, hne, hdig, hshape⟩ := h
  rcases hshape with heq | ⟨sep, fs, hsep, hfne, hfdig, heq⟩
  · rw [heq, map_comma_digits hdig]
    refine ⟨pyFloatMag_digits hne hdig, ?_⟩
    rcases ds with _ | ⟨d, ds'⟩
    · exact absurd rfl hne
    · exact ⟨d, ds', rfl, hdig d (by simp)⟩
  · have hsep' : (if sep = ',' then '.' else sep) = '.' := by
      rcases hsep with rfl | rfl
      · rw [if_neg (by decide)]
      · rw [if_pos rfl]
    have hmap : (ds ++ sep :: fs).map (fun c => if c = ',' then '.' else c) =
        ds ++ '.' :: fs := by
      rw [List.map_append, map_comma_digits hdig, List.map_cons, hsep',
        map_comma_digits hfdig]
    rw [heq, hmap]
    refine ⟨pyFloatMag_frac hne hdig hfdig, ?_⟩
    rcases ds with _ | ⟨d, ds'⟩
    · exact absurd rfl hne
    · exact ⟨d, ds' ++ '.' :: fs, by simp, hdig d (by simp)⟩

theorem to_float_isSome {m : List Char} (h : SignedNumShape m) :
    (to_float m).isSome = true := by
  unfold to_float
  rcases h with hn | ⟨m', rfl, hn⟩ | ⟨m', rfl, hn⟩
  · obtain ⟨hmag, d, t, hmap, hd⟩ := pyFloatMag_mapped_NumShape hn
    rw [hmap] at hmag ⊢
    rw [pyFloat_digit_head hd]
    exact hmag
  · simp only [List.map_cons]
    rw [show (if '-' = ',' then '.' else '-') = '-' from by decide, pyFloat_minus]
    obtain ⟨hmag, -⟩ := pyFloatMag_mapped_NumShape hn
    rcases hopt : pyFloatMag (m'.map fun c => if c = ',' then '.' else c) with _ | q
    · rw [hopt] at hmag; simp at hmag
    · rfl
  · simp only [List.map_cons]
    rw [show (if '+' = ',' then '.' else '+') = '+' from by decide, pyFloat_plus]
    obtain ⟨hmag, -⟩ := pyFloatMag_mapped_NumShape hn
    exact hmag

theorem to_float_of_matchSignedNum {cs m r : List Char}
    (h : matchSignedNum cs = some (m, r)) : (to_float m).isSome = true := by
  obtain ⟨-, hshape⟩ := matchSignedNum_spec h
  rcases hshape with hn | ⟨m', rfl, hn⟩
  · exact to_float_isSome (Or.inl hn)
  · exact to_float_isSome (Or.inr (Or.inl ⟨m', rfl, hn⟩))

theorem matchNumToken_spec {cs m r : List Char} (h : matchNumToken cs = some (m, r)) :
    cs = m ++ r ∧ SignedNumShape m := by
  cases cs with
  | nil => simp [matchNumToken] at h
  | cons c cs' =>
    unfold matchNumToken at h
    dsimp only at h
    by_cases hp : c = '+'
    · rw [if_pos hp] at h
      rcases hmc : matchNumCore cs' with _ | ⟨m', r'⟩
      · rw [hmc] at h; simp at h
      · rw [hmc] at h
        simp at h
        obtain ⟨hm, hr⟩ := h
        obtain ⟨happ, hshape⟩ := matchNumCore_spec hmc
        subst hp
        rw [← hm, ← hr]
        exact ⟨by rw [happ]; rfl, Or.inr (Or.inr ⟨m', rfl, hshape⟩)⟩
    · rw [if_neg hp] at h
      by_cases hm' : c = '-'
      · rw [if_pos hm'] at h
        rcases hmc : matchNumCore cs' with _ | ⟨m', r'⟩
        · rw [hmc] at h; simp at h
        · rw [hmc] at h
          simp at h
          obtain ⟨hm, hr⟩ := h
          obtain ⟨happ, hshape⟩ := matchNumCore_spec hmc
          subst hm'
          rw [← hm, ← hr]
          exact ⟨by rw [happ]; rfl, Or.inr (Or.inl ⟨m', rfl, hshape⟩)⟩
      · rw [if_neg hm'] at h
        obtain ⟨happ, hshape⟩ := matchNumCore_spec h
        exact ⟨happ, Or.inl hshape⟩

theorem to_float_of_numFullmatch {t : List Char} (h : numFullmatch t = true) :
    (to_float t).isSome = true := by
  unfold numFullmatch at h
  rcases hmt : matchNumToken t with _ | ⟨m, r⟩
  · rw [hmt] at h; simp at h
  · rw [hmt] at h
    cases r with
    | cons _ _ => simp at h
    | nil =>
      obtain ⟨happ, hshape⟩ := matchNumToken_spec hmt
      rw [List.append_nil] at happ
      rw [happ]
      exact to_float_isSome hshape

/-! ### Trailing whitespace does not create or destroy a match at a position -/

theorem space_ne_sep {c : Char} (h : isSpaceCh c = true) : ¬(c = '.' ∨ c = ',') := by
  intro hc
  rcases hc with rfl | rfl <;> exact absurd h (by decide)

theorem matchNumCore_ws {xs ws m r : List Char} (hws : ∀ c ∈ ws, isSpaceCh c = true)
    (h : matchNumCore (xs ++ ws) = some (m, r)) :
    ∃ r0, matchNumCore xs = some (m, r0) ∧ r = r0 ++ ws := by
  unfold matchNumCore at h ⊢
  rw [takeDigits_ws_append hws] at h
  rcases htd : takeDigits xs with ⟨ds, rx⟩
  rw [htd] at h
  cases ds with
  | nil => simp at h
  | cons d ds' =>
    dsimp only at h ⊢
    cases rx with
    | nil =>
      simp only [List.nil_append] at h
      cases ws with
      | nil =>
        simp at h
        exact ⟨[], by simp [h.1, h.2], by simp [h.2]⟩
      | cons w ws' =>
        dsimp only at h
        rw [if_neg (space_ne_sep (hws w (by simp)))] at h
        simp at h
        exact ⟨[], by simp [h.1], by simp [h.2]⟩
    | cons c rx' =>
      simp only [List.cons_append] at h
      dsimp only at h ⊢
      by_cases hc : c = '.' ∨ c = ','
      · rw [if_pos hc] at h ⊢
        rw [takeDigits_ws_append hws] at h
        rcases htd2 : takeDigits rx' with ⟨fs, r3⟩
        rw [htd2] at h
        dsimp only at h ⊢
        cases fs with
        | nil =>
          simp at h
          exact ⟨c :: rx', by simp [h.1], by simp [h.2]⟩
        | cons f fs' =>
          dsimp only at h ⊢
          simp at h
          exact ⟨r3, by simp [h.1], by simp [h.2]⟩
      · rw [if_neg hc] at h ⊢
        simp at h
        exact ⟨c :: rx', by simp [h.1], by simp [h.2]⟩

theorem matchSignedNum_ws {xs ws m r : List Char} (hws : ∀ c ∈ ws, isSpaceCh c = true)
    (h : matchSignedNum (xs ++ ws) = some (m, r)) :
    ∃ r0, matchSignedNum xs = some (m, r0) ∧ r = r0 ++ ws := by
  cases xs with
  | nil =>
    exfalso
    simp only [List.nil_append] at h
    obtain ⟨d, t, hdt, hd⟩ := matchSignedNum_head h
    have hsp := hws d (by rw [hdt]; simp)
    rcases hd with rfl | hdig
    · exact absurd hsp (by decide)
    · rw [digit_not_space hdig] at hsp
      exact absurd hsp (by simp)
  | cons c xs' =>
    unfold matchSignedNum at h ⊢
    simp only [List.cons_append] at h
    dsimp only at h ⊢
    by_cases hc : c = '-'
    · rw [if_pos hc] at h ⊢
      rcases hmc : matchNumCore (xs' ++ ws) with _ | ⟨m', r'⟩
      · rw [hmc] at h; simp at h
      · rw [hmc] at h
        simp at h
        obtain ⟨r0, hx, hr0⟩ := matchNumCore_ws hws hmc
        rw [hx]
        exact ⟨r0, by simp [← h.1], by simp [← h.2, hr0]⟩
    · rw [if_neg hc] at h ⊢
      exact matchNumCore_ws hws (by simpa using h)

theorem tryLt_ws {xs ws : List Char} (hws : ∀ c ∈ ws, isSpaceCh c = true)
    (h : (tryLtCaps (xs ++ ws)).isSome = true) : (tryLtCaps xs).isSome = true := by
  cases xs with
  | nil =>
    exfalso
    simp only [List.nil_append] at h
    cases ws with
    | nil => simp [tryLtCaps] at h
    | cons w ws' =>
      unfold tryLtCaps at h
      dsimp only at h
      have hw := hws w (by simp)
      rw [if_neg (by intro he; rw [he] at hw; exact absurd hw (by decide))] at h
      simp at h
  | cons c xs' =>
    unfold tryLtCaps at h ⊢
    simp only [List.cons_append] at h
    dsimp only
    by_cases hc : c = '<'
    · rw [if_pos hc] at h ⊢
      rw [lstrip_append] at h
      by_cases hnil : lstrip xs' = []
      · rw [if_pos hnil, lstrip_all_space hws] at h
        simp [matchSignedNum] at h
      · rw [if_neg hnil] at h
        rcases hms : matchSignedNum (lstrip xs' ++ ws) with _ | ⟨mm, rr⟩
        · rw [hms] at h; simp at h
        · obtain ⟨r0, hx, -⟩ := matchSignedNum_ws hws hms
          rw [hx]
          rfl
    · rw [if_neg hc] at h
      simp at h

theorem tryGt_ws {xs ws : List Char} (hws : ∀ c ∈ ws, isSpaceCh c = true)
    (h : (tryGtCaps (xs ++ ws)).isSome = true) : (tryGtCaps xs).isSome = true := by
  cases xs with
  | nil =>
    exfalso
    simp only [List.nil_append] at h
    cases ws with
    | nil => simp [tryGtCaps] at h
    | cons w ws' =>
      unfold tryGtCaps at h
      dsimp only at h
      have hw := hws w (by simp)
      rw [if_neg (by intro he; rw [he] at hw; exact absurd hw (by decide))] at h
      simp at h
  | cons c xs' =>
    unfold tryGtCaps at h ⊢
    simp only [List.cons_append] at h
    dsimp only
    by_cases hc : c = '>'
    · rw [if_pos hc] at h ⊢
      rw [lstrip_append] at h
      by_cases hnil : lstrip xs' = []
      · rw [if_pos hnil, lstrip_all_space hws] at h
        simp [matchSignedNum] at h
      · rw [if_neg hnil] at h
        rcases hms : matchSignedNum (lstrip xs' ++ ws) with _ | ⟨mm, rr⟩
        · rw [hms] at h; simp at h
        · obtain ⟨r0, hx, -⟩ := matchSignedNum_ws hws hms
          rw [hx]
          rfl
    · rw [if_neg hc] at h
      simp at h

theorem tryRange_ws {xs ws : List Char} (hws : ∀ c ∈ ws, isSpaceCh c = true)
    (h : (tryRangeCaps (xs ++ ws)).isSome = true) : (tryRangeCaps xs).isSome = true := by
  unfold tryRangeCaps at h ⊢
  rcases hms : matchSignedNum (xs ++ ws) with _ | ⟨lo, r1⟩
  · rw [hms] at h; simp at h
  · rw [hms] at h
    obtain ⟨r0, hx, hr0⟩ := matchSignedNum_ws hws hms
    rw [hx]
    subst hr0
    dsimp only at h ⊢
    rw [lstrip_append] at h
    by_cases hnil : lstrip r0 = []
    · rw [if_pos hnil, lstrip_all_space hws] at h
      simp at h
    · rw [if_neg hnil] at h
      rcases hl : lstrip r0 with _ | ⟨c, r2⟩
      · exact absurd hl hnil
      · rw [hl] at h
        simp only [List.cons_append] at h
        dsimp only
        by_cases hc : c = '-'
        · rw [if_pos hc] at h ⊢
          rw [lstrip_append] at h
          by_cases hnil2 : lstrip r2 = []
          · rw [if_pos hnil2, lstrip_all_space hws] at h
            simp [matchSignedNum] at h
          · rw [if_neg hnil2] at h
            rcases hms2 : matchSignedNum (lstrip r2 ++ ws) with _ | ⟨hi, r3⟩
            · rw [hms2] at h; simp at h
            · obtain ⟨r0', hx2, -⟩ := matchSignedNum_ws hws hms2
              rw [hx2]
              rfl
        · rw [if_neg hc] at h
          simp at h

/-! ### Structure of a successful pattern match -/

theorem tryRange_spec {cs : List Char} {g : List Char × List Char} {r : List Char}
    (h : tryRangeCaps cs = some (g, r)) : ∃ pre, pre ≠ [] ∧ cs = pre ++ r := by
  unfold tryRangeCaps at h
  rcases hms : matchSignedNum cs with _ | ⟨lo, r1⟩
  · rw [hms] at h; simp at h
  · rw [hms] at h
    dsimp only at h
    obtain ⟨happ1, -⟩ := matchSignedNum_spec hms
    have hsp1 : r1 = r1.takeWhile isSpaceCh ++ lstrip r1 :=
      (List.takeWhile_append_dropWhile (p := isSpaceCh) (l := r1)).symm
    rcases hl : lstrip r1 with _ | ⟨c, r2⟩
    · rw [hl] at h; simp at h
    · rw [hl] at h
      dsimp only at h
      by_cases hc : c = '-'
      · rw [if_pos hc] at h
        rcases hms2 : matchSignedNum (lstrip r2) with _ | ⟨hi, r3⟩
        · rw [hms2] at h; simp at h
        · rw [hms2] at h
          simp at h
          obtain ⟨happ2, -⟩ := matchSignedNum_spec hms2
          have hsp2 : r2 = r2.takeWhile isSpaceCh ++ lstrip r2 :=
            (List.takeWhile_append_dropWhile (p := isSpaceCh) (l := r2)).symm
          refine ⟨lo ++ r1.takeWhile isSpaceCh ++ c :: (r2.takeWhile isSpaceCh ++ hi), ?_, ?_⟩
          · rcases lo with _ | _ <;> simp
          · rw [happ1]
            conv_lhs => rw [hsp1, hl]
            rw [← h.2]
            conv_lhs => rw [hsp2, happ2]
            simp
      · rw [if_neg hc] at h; simp at h

theorem tryLt_spec {cs m r : List Char} (h : tryLtCaps cs = some (m, r)) :
    ∃ pre, pre ≠ [] ∧ cs = pre ++ r := by
  cases cs with
  | nil => simp [tryLtCaps] at h
  | cons c cs' =>
    unfold tryLtCaps at h
    dsimp only at h
    by_cases hc : c = '<'
    · rw [if_pos hc] at h
      obtain ⟨happ, -⟩ := matchSignedNum_spec h
      have hsp : cs' = cs'.takeWhile isSpaceCh ++ lstrip cs' :=
        (List.takeWhile_append_dropWhile (p := isSpaceCh) (l := cs')).symm
      refine ⟨c :: (cs'.takeWhile isSpaceCh ++ m), by simp, ?_⟩
      conv_lhs => rw [hsp, happ]
      simp
    · rw [if_neg hc] at h; simp at h

theorem tryGt_spec {cs m r : List Char} (h : tryGtCaps cs = some (m, r)) :
    ∃ pre, pre ≠ [] ∧ cs = pre ++ r := by
  cases cs with
  | nil => simp [tryGtCaps] at h
  | cons c cs' =>
    unfold tryGtCaps at h
    dsimp only at h
    by_cases hc : c = '>'
    · rw [if_pos hc] at h
      obtain ⟨happ, -⟩ := matchSignedNum_spec h
      have hsp : cs' = cs'.takeWhile isSpaceCh ++ lstrip cs' :=
        (List.takeWhile_append_dropWhile (p := isSpaceCh) (l := cs')).symm
      refine ⟨c :: (cs'.takeWhile isSpaceCh ++ m), by simp, ?_⟩
      conv_lhs => rw [hsp, happ]
      simp
    · rw [if_neg hc] at h; simp at h

theorem tryRange_head {cs : List Char} {g : List Char × List Char} {r : List Char}
    (h : tryRangeCaps cs = some (g, r)) :
    ∃ d t, cs = d :: t ∧ isSpaceCh d = false := by
  unfold tryRangeCaps at h
  rcases hms : matchSignedNum cs with _ | ⟨lo, r1⟩
  · rw [hms] at h; simp at h
  · obtain ⟨d, t, hdt, hd⟩ := matchSignedNum_head hms
    refine ⟨d, t, hdt, ?_⟩
    rcases hd with rfl | hdig
    · decide
    · exact digit_not_space hdig

theorem tryLt_head {cs m r : List Char} (h : tryLtCaps cs = some (m, r)) :
    ∃ d t, cs = d :: t ∧ isSpaceCh d = false := by
  cases cs with
  | nil => simp [tryLtCaps] at h
  | cons c cs' =>
    unfold tryLtCaps at h
    dsimp only at h
    by_cases hc : c = '<'
    · exact ⟨c, cs', rfl, by rw [hc]; decide⟩
    · rw [if_neg hc] at h; simp at h

theorem tryGt_head {cs m r : List Char} (h : tryGtCaps cs = some (m, r)) :
    ∃ d t, cs = d :: t ∧ isSpaceCh d = false := by
  cases cs with
  | nil => simp [tryGtCaps] at h
  | cons c cs' =>
    unfold tryGtCaps at h
    dsimp only at h
    by_cases hc : c = '>'
    · exact ⟨c, cs', rfl, by rw [hc]; decide⟩
    · rw [if_neg hc] at h; simp at h

theorem tryRange_floats {cs : List Char} {lo hi : List Char} {r : List Char}
    (h : tryRangeCaps cs = some ((lo, hi), r)) :
    (to_float lo).isSome = true ∧ (to_float hi).isSome = true := by
  unfold tryRangeCaps at h
  rcases hms : matchSignedNum cs with _ | ⟨lo', r1⟩
  · rw [hms] at h; simp at h
  · rw [hms] at h
    dsimp only at h
    rcases hl : lstrip r1 with _ | ⟨c, r2⟩
    · rw [hl] at h; simp at h
    · rw [hl] at h
      dsimp only at h
      by_cases hc : c = '-'
      · rw [if_pos hc] at h
        rcases hms2 : matchSignedNum (lstrip r2) with _ | ⟨hi', r3⟩
        · rw [hms2] at h; simp at h
        · rw [hms2] at h
          simp at h
          obtain ⟨⟨hlo, hhi⟩, -⟩ := h
          rw [← hlo, ← hhi]
          exact ⟨to_float_of_matchSignedNum hms, to_float_of_matchSignedNum hms2⟩
      · rw [if_neg hc] at h; simp at h

theorem tryLt_float {cs m r : List Char} (h : tryLtCaps cs = some (m, r)) :
    (to_float m).isSome = true := by
  cases cs with
  | nil => simp [tryLtCaps] at h
  | cons c cs' =>
    unfold tryLtCaps at h
    dsimp only at h
    by_cases hc : c = '<'
    · rw [if_pos hc] at h
      exact to_float_of_matchSignedNum h
    · rw [if_neg hc] at h; simp at h

theorem tryGt_float {cs m r : List Char} (h : tryGtCaps cs = some (m, r)) :
    (to_float m).isSome = true := by
  cases cs with
  | nil => simp [tryGtCaps] at h
  | cons c cs' =>
    unfold tryGtCaps at h
    dsimp only at h
    by_cases hc : c = '>'
    · rw [if_pos hc] at h
      exact to_float_of_matchSignedNum h
    · rw [if_neg hc] at h; simp at h

/-! ### `finditer` / `search` lemmas -/

theorem findIterGo_mem {γ : Type} {f : List Char → Option (γ × List Char)}
    (hwf : ∀ cs g rest, f cs = some (g, rest) → ∃ pre, cs = pre ++ rest) :
    ∀ (fuel : ℕ) (cs : List Char) (pos p : ℕ) (g : γ),
      (p, g) ∈ findIterGo f fuel cs pos →
      ∃ q rest, p = pos + q ∧ f (cs.drop q) = some (g, rest) := by
  intro fuel
  induction fuel with
  | zero =>
    intro cs pos p g h
    simp [findIterGo] at h
  | succ n ih =>
    intro cs pos p g h
    unfold findIterGo at h
    cases cs with
    | nil => simp at h
    | cons c tail =>
      rcases hf : f (c :: tail) with _ | ⟨g', rest⟩
      · rw [hf] at h
        obtain ⟨q, rest', hp, hq⟩ := ih tail (pos + 1) p g h
        exact ⟨q + 1, rest', by omega, by simpa using hq⟩
      · rw [hf] at h
        dsimp only at h
        by_cases hlen : (c :: tail).length - rest.length = 0
        · rw [if_pos hlen] at h
          obtain ⟨q, rest', hp, hq⟩ := ih tail (pos + 1) p g h
          exact ⟨q + 1, rest', by omega, by simpa using hq⟩
        · rw [if_neg hlen] at h
          rcases List.mem_cons.mp h with heq | hmem
          · have hp : p = pos ∧ g = g' := by
              constructor <;> [exact congrArg Prod.fst heq; exact congrArg Prod.snd heq]
            refine ⟨0, rest, by omega, ?_⟩
            rw [List.drop_zero, hf, hp.2]
          · obtain ⟨pre, hpre⟩ := hwf _ _ _ hf
            have hlen2 : (c :: tail).length - rest.length = pre.length := by
              rw [hpre, List.length_append]
              omega
            have hdrop : (c :: tail).drop ((c :: tail).length - rest.length) = rest := by
              rw [hlen2]
              conv_lhs => rw [hpre]
              exact List.drop_left pre rest
            obtain ⟨q, rest', hp, hq⟩ :=
              ih rest (pos + ((c :: tail).length - rest.length)) p g hmem
            refine ⟨(c :: tail).length - rest.length + q, rest', by omega, ?_⟩
            rw [← List.drop_drop, hdrop]
            exact hq

theorem findIterGo_ne_nil {γ : Type} {f : List Char → Option (γ × List Char)}
    (hcons : ∀ cs g rest, f cs = some (g, rest) → rest.length < cs.length) :
    ∀ (fuel : ℕ) (cs : List Char) (pos q : ℕ),
      cs.length ≤ fuel → q < cs.length → (f (cs.drop q)).isSome = true →
      findIterGo f fuel cs pos ≠ [] := by
  intro fuel
  induction fuel with
  | zero =>
    intro cs pos q hfuel hq _
    omega
  | succ n ih =>
    intro cs pos q hfuel hq hsome
    unfold findIterGo
    cases cs with
    | nil => simp at hq
    | cons c tail =>
      rcases hf : f (c :: tail) with _ | ⟨g, rest⟩
      · dsimp only
        cases q with
        | zero =>
          rw [List.drop_zero, hf] at hsome
          simp at hsome
        | succ q' =>
          exact ih tail (pos + 1) q' (by simp at hfuel ⊢; omega)
            (by simp at hq ⊢; omega) (by simpa using hsome)
      · dsimp only
        have hlen : ¬((c :: tail).length - rest.length = 0) := by
          have := hcons _ _ _ hf
          omega
        rw [if_neg hlen]
        simp

theorem findIter_mem {γ : Type} {f : List Char → Option (γ × List Char)}
    (hwf : ∀ cs g rest, f cs = some (g, rest) → ∃ pre, cs = pre ++ rest)
    {cs : List Char} {p : ℕ} {g : γ} (h : (p, g) ∈ findIter f cs) :
    ∃ rest, f (cs.drop p) = some (g, rest) := by
  obtain ⟨q, rest, hp, hq⟩ := findIterGo_mem hwf cs.length cs 0 p g h
  refine ⟨rest, ?_⟩
  rw [show p = q by omega]
  exact hq

theorem reSearch_mem {γ : Type} {f : List Char → Option (γ × List Char)}
    (hwf : ∀ cs g rest, f cs = some (g, rest) → ∃ pre, cs = pre ++ rest)
    {cs : List Char} {g : γ} (h : reSearch f cs = some g) :
    ∃ p rest, f (cs.drop p) = some (g, rest) := by
  unfold reSearch at h
  rcases hfi : findIter f cs with _ | ⟨⟨p, g'⟩, t⟩
  · rw [hfi] at h; simp at h
  · rw [hfi] at h
    dsimp only at h
    have hg : g' = g := by simpa using h
    subst hg
    have hmem : (p, g') ∈ findIter f cs := by rw [hfi]; simp
    obtain ⟨rest, hq⟩ := findIter_mem hwf hmem
    exact ⟨p, rest, hq⟩

theorem reSearch_isSome {γ : Type} {f : List Char → Option (γ × List Char)}
    (hcons : ∀ cs g rest, f cs = some (g, rest) → rest.length < cs.length)
    {cs : List Char} {q : ℕ} (hq : q < cs.length)
    (hsome : (f (cs.drop q)).isSome = true) : (reSearch f cs).isSome = true := by
  unfold reSearch
  rcases hfi : findIter f cs with _ | ⟨⟨p, g⟩, t⟩
  · exfalso
    unfold findIter at hfi
    exact findIterGo_ne_nil hcons cs.length cs 0 q le_rfl hq hsome hfi
  · dsimp only
    rfl

/-! ### Instantiations of the generic facts for the three patterns -/

theorem tryRange_wf : ∀ (cs : List Char) (g : (List Char × List Char)) (rest : List Char),
    tryRangeCaps cs = some (g, rest) → ∃ pre, cs = pre ++ rest := by
  intro cs g rest h
  obtain ⟨pre, -, happ⟩ := tryRange_spec h
  exact ⟨pre, happ⟩

theorem tryLt_wf : ∀ (cs : List Char) (g rest : List Char),
    tryLtCaps cs = some (g, rest) → ∃ pre, cs = pre ++ rest := by
  intro cs g rest h
  obtain ⟨pre, -, happ⟩ := tryLt_spec h
  exact ⟨pre, happ⟩

theorem tryGt_wf : ∀ (cs : List Char) (g rest : List Char),
    tryGtCaps cs = some (g, rest) → ∃ pre, cs = pre ++ rest := by
  intro cs g rest h
  obtain ⟨pre, -, happ⟩ := tryGt_spec h
  exact ⟨pre, happ⟩

theorem tryRange_consume : ∀ (cs : List Char) (g : (List Char × List Char)) (rest : List Char),
    tryRangeCaps cs = some (g, rest) → rest.length < cs.length := by
  intro cs g rest h
  obtain ⟨pre, hne, happ⟩ := tryRange_spec h
  rw [happ, List.length_append]
  have : 0 < pre.length := List.length_pos.mpr hne
  omega

theorem tryLt_consume : ∀ (cs : List Char) (g rest : List Char),
    tryLtCaps cs = some (g, rest) → rest.length < cs.length := by
  intro cs g rest h
  obtain ⟨pre, hne, happ⟩ := tryLt_spec h
  rw [happ, List.length_append]
  have : 0 < pre.length := List.length_pos.mpr hne
  omega

theorem tryGt_consume : ∀ (cs : List Char) (g rest : List Char),
    tryGtCaps cs = some (g, rest) → rest.length < cs.length := by
  intro cs g rest h
  obtain ⟨pre, hne, happ⟩ := tryGt_spec h
  rw [happ, List.length_append]
  have : 0 < pre.length := List.length_pos.mpr hne
  omega

theorem rangeStarts_mem {cs : List Char} {s : ℕ} (h : s ∈ rangeStarts cs) :
    ∃ g rest, tryRangeCaps (cs.drop s) = some (g, rest) := by
  unfold rangeStarts at h
  obtain ⟨x, hmem, hx⟩ := List.mem_map.mp h
  obtain ⟨p, g⟩ := x
  dsimp at hx
  subst hx
  obtain ⟨rest, hf⟩ := findIter_mem tryRange_wf hmem
  exact ⟨g, rest, hf⟩

theorem ltStarts_mem {cs : List Char} {s : ℕ} (h : s ∈ ltStarts cs) :
    ∃ g rest, tryLtCaps (cs.drop s) = some (g, rest) := by
  unfold ltStarts at h
  obtain ⟨x, hmem, hx⟩ := List.mem_map.mp h
  obtain ⟨p, g⟩ := x
  dsimp at hx
  subst hx
  obtain ⟨rest, hf⟩ := findIter_mem tryLt_wf hmem
  exact ⟨g, rest, hf⟩

theorem gtStarts_mem {cs : List Char} {s : ℕ} (h : s ∈ gtStarts cs) :
    ∃ g rest, tryGtCaps (cs.drop s) = some (g, rest) := by
  unfold gtStarts at h
  obtain ⟨x, hmem, hx⟩ := List.mem_map.mp h
  obtain ⟨p, g⟩ := x
  dsimp at hx
  subst hx
  obtain ⟨rest, hf⟩ := findIter_mem tryGt_wf hmem
  exact ⟨g, rest, hf⟩

theorem getLast?_append_ite {α : Type} [DecidableEq α] (l₁ l₂ : List α) :
    (l₁ ++ l₂).getLast? = if l₂ = [] then l₁.getLast? else l₂.getLast? := by
  cases l₂ with
  | nil => simp
  | cons a t => rw [List.getLast?_append_cons, if_neg (by simp)]

theorem getLast?_mem {α : Type} {l : List α} {a : α} (h : l.getLast? = some a) : a ∈ l := by
  have h2 : a ∈ l.getLast? := by rw [h]; rfl
  obtain ⟨hne, heq⟩ := List.mem_getLast?_eq_getLast h2
  rw [heq]
  exact List.getLast_mem hne

/-! ### Stable sort lemmas -/

theorem insertK_length {α : Type} (key : α → ℤ) (a : α) (l : List α) :
    (insertK key a l).length = l.length + 1 := by
  induction l with
  | nil => rfl
  | cons b bs ih =>
    unfold insertK
    by_cases h : key a ≤ key b
    · rw [if_pos h]
      rfl
    · rw [if_neg h]
      simp [ih]

theorem sortK_length {α : Type} (key : α → ℤ) (l : List α) :
    (sortK key l).length = l.length := by
  induction l with
  | nil => rfl
  | cons a as ih =>
    unfold sortK
    rw [insertK_length, ih]
    rfl

theorem sortK_ne_nil {α : Type} (key : α → ℤ) {l : List α} (h : l ≠ []) :
    sortK key l ≠ [] := by
  intro he
  apply h
  have hl := sortK_length key l
  rw [he] at hl
  exact List.length_eq_zero.mp hl.symm

theorem insertK_filter {α : Type} (key : α → ℤ) (k : ℤ) (a : α) (l : List α) :
    (insertK key a l).filter (fun x => key x == k) =
      if key a = k then a :: l.filter (fun x => key x == k)
      else l.filter (fun x => key x == k) := by
  induction l with
  | nil =>
    by_cases h : key a = k
    · rw [if_pos h]
      simp [insertK, h]
    · rw [if_neg h]
      simp [insertK, h]
  | cons b bs ih =>
    unfold insertK
    by_cases hle : key a ≤ key b
    · rw [if_pos hle, List.filter_cons]
      by_cases h : key a = k
      · rw [if_pos h, if_pos (by simp [h])]
      · rw [if_neg h, if_neg (by simp [h])]
    · rw [if_neg hle, List.filter_cons]
      by_cases h : key a = k
      · have hbk : ¬((key b == k) = true) := by
          simp only [beq_iff_eq]
          omega
        rw [if_pos h, if_neg hbk, ih, if_pos h, List.filter_cons, if_neg hbk]
      · rw [if_neg h, ih, if_neg h, List.filter_cons]

theorem mem_insertK {α : Type} (key : α → ℤ) (a x : α) (l : List α) :
    x ∈ insertK key a l ↔ x = a ∨ x ∈ l := by
  induction l with
  | nil => simp [insertK]
  | cons b bs ih =>
    unfold insertK
    by_cases h : key a ≤ key b
    · rw [if_pos h]
      simp
    · rw [if_neg h]
      simp only [List.mem_cons, ih]
      tauto

theorem pairwise_insertK {α : Type} (key : α → ℤ) (a : α) {l : List α}
    (h : l.Pairwise (fun x y => key x ≤ key y)) :
    (insertK key a l).Pairwise (fun x y => key x ≤ key y) := by
  induction l with
  | nil => simp [insertK]
  | cons b bs ih =>
    unfold insertK
    rcases List.pairwise_cons.mp h with ⟨hb, hbs⟩
    by_cases hle : key a ≤ key b
    · rw [if_pos hle]
      refine List.Pairwise.cons ?_ h
      intro y hy
      rcases List.mem_cons.mp hy with rfl | hy'
      · exact hle
      · exact le_trans hle (hb y hy')
    · rw [if_neg hle]
      refine List.Pairwise.cons ?_ (ih hbs)
      intro y hy
      rcases (mem_insertK key a y bs).mp hy with rfl | hy'
      · omega
      · exact hb y hy'

theorem sortK_pairwise {α : Type} (key : α → ℤ) (l : List α) :
    (sortK key l).Pairwise (fun x y => key x ≤ key y) := by
  induction l with
  | nil => simp [sortK]
  | cons a as ih => exact pairwise_insertK key a ih

theorem sortK_filter {α : Type} (key : α → ℤ) (k : ℤ) (l : List α) :
    (sortK key l).filter (fun x => key x == k) = l.filter (fun x => key x == k) := by
  induction l with
  | nil => rfl
  | cons a as ih =>
    unfold sortK
    rw [insertK_filter, List.filter_cons]
    by_cases h : key a = k
    · rw [if_pos h, if_pos (by simp [h]), ih]
    · rw [if_neg h, if_neg (by simp [h]), ih]

theorem filter_congr_own {α : Type} {p q : α → Bool} (l : List α) (h : ∀ a, p a = q a) :
    l.filter p = l.filter q := by
  induction l with
  | nil => rfl
  | cons a as ih => rw [List.filter_cons, List.filter_cons, h a, ih]

theorem sevRank_eq_zero_iff (t : String) : sevRank t = 0 ↔ t = "critical" := by
  unfold sevRank
  split_ifs with h0 h1 h2
  · exact iff_of_true rfl h0
  · exact iff_of_false (by omega) (fun he => absurd (he ▸ h0) (by decide))
  · exact iff_of_false (by omega) (fun he => absurd (he ▸ h2) (by decide))
  · exact iff_of_false (by omega) h0

theorem sevRank_eq_one_iff (t : String) : sevRank t = 1 ↔ t = "warn" := by
  unfold sevRank
  split_ifs with h0 h1 h2
  · exact iff_of_false (by omega) (fun he => absurd (he ▸ h0) (by decide))
  · exact iff_of_true rfl h1
  · exact iff_of_false (by omega) (fun he => absurd (he ▸ h2) (by decide))
  · exact iff_of_false (by omega) h1

theorem sevRank_eq_two_iff (t : String) : sevRank t = 2 ↔ t = "info" := by
  unfold sevRank
  split_ifs with h0 h1 h2
  · exact iff_of_false (by omega) (fun he => absurd (he ▸ h0) (by decide))
  · exact iff_of_false (by omega) (fun he => absurd (he ▸ h1) (by decide))
  · exact iff_of_true rfl h2
  · exact iff_of_false (by omega) h2

theorem sev_filter_eq {k : ℤ} {s : String} (hiff : ∀ t, sevRank t = k ↔ t = s)
    (l : List Insight) :
    (sortK (fun i => sevRank i.severity) l).filter (fun i => i.severity == s) =
      l.filter (fun i => i.severity == s) := by
  have hpt : ∀ i : Insight, (i.severity == s) = (sevRank i.severity == k) := by
    intro i
    by_cases h : i.severity = s
    · have h2 : sevRank i.severity = k := (hiff _).mpr h
      have e1 : (i.severity == s) = true := by simp [h]
      have e2 : (sevRank i.severity == k) = true := by simp [h2]
      rw [e1, e2]
    · have h2 : ¬ sevRank i.severity = k := fun hc => h ((hiff _).mp hc)
      simp [h, h2]
  rw [filter_congr_own _ hpt, filter_congr_own _ hpt, sortK_filter]

/-! ### `parse_ref` invariants -/

theorem refModeInvariant_range {lo hi : Option ℚ} {t : List Char}
    (h1 : lo.isSome = true) (h2 : hi.isSome = true) :
    refModeInvariant ⟨"range", lo, hi, t⟩ = true := by
  unfold refModeInvariant
  dsimp only
  rw [if_pos rfl]
  simp [h1, h2]

theorem refModeInvariant_lt {lo hi : Option ℚ} {t : List Char} (h2 : hi.isSome = true) :
    refModeInvariant ⟨"lt", lo, hi, t⟩ = true := by
  unfold refModeInvariant
  dsimp only
  rw [if_neg (by decide), if_pos rfl]
  exact h2

theorem refModeInvariant_gt {lo hi : Option ℚ} {t : List Char} (h1 : lo.isSome = true) :
    refModeInvariant ⟨"gt", lo, hi, t⟩ = true := by
  unfold refModeInvariant
  dsimp only
  rw [if_neg (by decide), if_neg (by decide), if_pos rfl]
  exact h1

theorem refModeInvariant_unknown {t : List Char} :
    refModeInvariant ⟨"unknown", none, none, t⟩ = true := by
  unfold refModeInvariant
  dsimp only
  rw [if_neg (by decide), if_neg (by decide), if_neg (by decide)]
  rfl

theorem parse_ref_invariant (cs : List Char) : refModeInvariant (parse_ref cs) = true := by
  unfold parse_ref
  dsimp only
  rcases hr : reSearch tryRangeCaps (pstrip cs) with _ | ⟨lo, hi⟩
  · rcases hl : reSearch tryLtCaps (pstrip cs) with _ | lim
    · rcases hg : reSearch tryGtCaps (pstrip cs) with _ | lim
      · exact refModeInvariant_unknown
      · obtain ⟨p, rest, hf⟩ := reSearch_mem tryGt_wf hg
        exact refModeInvariant_gt (tryGt_float hf)
    · obtain ⟨p, rest, hf⟩ := reSearch_mem tryLt_wf hl
      exact refModeInvariant_lt (tryLt_float hf)
  · obtain ⟨p, rest, hf⟩ := reSearch_mem tryRange_wf hr
    obtain ⟨h1, h2⟩ := tryRange_floats hf
    exact refModeInvariant_range h1 h2

theorem parse_ref_text (cs : List Char) : (parse_ref cs).text = pstrip cs := by
  unfold parse_ref
  dsimp only
  rcases hr : reSearch tryRangeCaps (pstrip cs) with _ | ⟨lo, hi⟩
  · rcases hl : reSearch tryLtCaps (pstrip cs) with _ | lim
    · rcases hg : reSearch tryGtCaps (pstrip cs) with _ | lim <;> rfl
    · rfl
  · rfl

theorem parse_ref_no_match (cs : List Char)
    (hr : reSearch tryRangeCaps (pstrip cs) = none)
    (hl : reSearch tryLtCaps (pstrip cs) = none)
    (hg : reSearch tryGtCaps (pstrip cs) = none) :
    parse_ref cs = ⟨"unknown", none, none, pstrip cs⟩ := by
  unfold parse_ref
  dsimp only
  rw [hr, hl, hg]

theorem parse_ref_mode_of_search (t : List Char)
    (h : (reSearch tryRangeCaps (pstrip t)).isSome = true ∨
         (reSearch tryLtCaps (pstrip t)).isSome = true ∨
         (reSearch tryGtCaps (pstrip t)).isSome = true) :
    ((parse_ref t).mode = "range" ∧ (parse_ref t).low.isSome = true ∧
      (parse_ref t).high.isSome = true) ∨
    ((parse_ref t).mode = "lt" ∧ (parse_ref t).high.isSome = true) ∨
    ((parse_ref t).mode = "gt" ∧ (parse_ref t).low.isSome = true) := by
  unfold parse_ref
  dsimp only
  rcases hr : reSearch tryRangeCaps (pstrip t) with _ | ⟨lo, hi⟩
  · rcases hl : reSearch tryLtCaps (pstrip t) with _ | lim
    · rcases hg : reSearch tryGtCaps (pstrip t) with _ | lim
      · rw [hr, hl, hg] at h
        simp at h
      · refine Or.inr (Or.inr ⟨rfl, ?_⟩)
        obtain ⟨p, rest, hf⟩ := reSearch_mem tryGt_wf hg
        exact tryGt_float hf
    · refine Or.inr (Or.inl ⟨rfl, ?_⟩)
      obtain ⟨p, rest, hf⟩ := reSearch_mem tryLt_wf hl
      exact tryLt_float hf
  · obtain ⟨p, rest, hf⟩ := reSearch_mem tryRange_wf hr
    obtain ⟨h1, h2⟩ := tryRange_floats hf
    exact Or.inl ⟨rfl, h1, h2⟩

/-! ### `classify_value` yields a definite status on well-formed inputs -/

theorem classify_value_statuses {v : ℚ} {ref : RefRange} {br : ℚ}
    (h : (ref.mode = "range" ∧ ref.low.isSome = true ∧ ref.high.isSome = true) ∨
         (ref.mode = "lt" ∧ ref.high.isSome = true) ∨
         (ref.mode = "gt" ∧ ref.low.isSome = true)) :
    classify_value (some v) ref br = "low" ∨ classify_value (some v) ref br = "high" ∨
    classify_value (some v) ref br = "borderline" ∨
    classify_value (some v) ref br = "normal" := by
  obtain ⟨mode, low, high, text⟩ := ref
  unfold classify_value
  dsimp only at h ⊢
  rcases h with ⟨hm, hl, hh⟩ | ⟨hm, hh⟩ | ⟨hm, hl⟩
  · subst hm
    rcases low with _ | lo
    · simp at hl
    · rcases high with _ | hi
      · simp at hh
      · rw [if_pos rfl]
        dsimp only
        split_ifs <;> simp
  · subst hm
    rcases high with _ | hi
    · simp at hh
    · rw [if_neg (by decide), if_pos rfl]
      dsimp only
      split_ifs <;> simp
  · subst hm
    rcases low with _ | lo
    · simp at hl
    · rw [if_neg (by decide), if_neg (by decide), if_pos rfl]
      dsimp only
      split_ifs <;> simp

/-! ### Properties of extracted rows -/

theorem findValIdx_spec : ∀ (ts : List (List Char)) (i : ℕ), findValIdx ts = some i →
    numFullmatch ((ts.drop i).headD []) = true := by
  intro ts
  induction ts with
  | nil =>
    intro i h
    simp [findValIdx] at h
  | cons t ts' ih =>
    intro i h
    unfold findValIdx at h
    rcases hf : findValIdx ts' with _ | j
    · rw [hf] at h
      by_cases hn : numFullmatch t = true
      · rw [if_pos hn] at h
        have : i = 0 := by simpa using h.symm
        subst this
        simpa using hn
      · rw [if_neg hn] at h
        simp at h
    · rw [hf] at h
      have : i = j + 1 := by simpa using h.symm
      subst this
      simpa using ih j hf

theorem extractTail_props {raw : List Char} {s : ℕ} {row : LabRow}
    (h : extractTail raw s = some row) :
    row.result_value = to_float row.result_text ∧ numFullmatch row.result_text = true ∧
    row.ref = parse_ref (pstrip (raw.drop s)) ∧
    row.status = classify_value row.result_value row.ref (1/20) := by
  unfold extractTail at h
  dsimp only at h
  rcases hfv : findValIdx (splitSpace (pstrip (raw.take s))) with _ | i
  · rw [hfv] at h
    simp at h
  · rw [hfv] at h
    dsimp only at h
    by_cases hname :
        (pstrip (joinSpace ((splitSpace (pstrip (raw.take s))).take i))).length < 2
    · rw [if_pos hname] at h
      simp at h
    · rw [if_neg hname] at h
      injection h with h2
      subst h2
      exact ⟨rfl, findValIdx_spec _ i hfv, rfl, rfl⟩

theorem extract_row_props {line : List Char} {row : LabRow}
    (h : extract_row_from_line line = some row) :
    row.result_value.isSome = true ∧
    ((row.ref.mode = "range" ∧ row.ref.low.isSome = true ∧ row.ref.high.isSome = true) ∨
     (row.ref.mode = "lt" ∧ row.ref.high.isSome = true) ∨
     (row.ref.mode = "gt" ∧ row.ref.low.isSome = true)) ∧
    (row.status = "low" ∨ row.status = "high" ∨ row.status = "borderline" ∨
      row.status = "normal") := by
  unfold extract_row_from_line at h
  dsimp only at h
  by_cases hlen : (collapseWs (pstrip line)).length < 8
  · rw [if_pos hlen] at h
    simp at h
  · rw [if_neg hlen] at h
    rcases hrm : refMatchStart (collapseWs (pstrip line)) with _ | s
    · rw [hrm] at h
      simp at h
    · rw [hrm] at h
      dsimp only at h
      obtain ⟨hval, hfull, href, hstat⟩ := extractTail_props h
      have h1 : row.result_value.isSome = true := by
        rw [hval]
        exact to_float_of_numFullmatch hfull
      have hmem : s ∈ rangeStarts (collapseWs (pstrip line)) ++
          ltStarts (collapseWs (pstrip line)) ++ gtStarts (collapseWs (pstrip line)) := by
        unfold refMatchStart at hrm
        exact getLast?_mem hrm
      have hsearch :
          (reSearch tryRangeCaps (pstrip (pstrip ((collapseWs (pstrip line)).drop s)))).isSome
            = true ∨
          (reSearch tryLtCaps (pstrip (pstrip ((collapseWs (pstrip line)).drop s)))).isSome
            = true ∨
          (reSearch tryGtCaps (pstrip (pstrip ((collapseWs (pstrip line)).drop s)))).isSome
            = true := by
        rw [pstrip_idem]
        rcases List.mem_append.mp hmem with h12 | hg
        · rcases List.mem_append.mp h12 with hr | hl
          · left
            obtain ⟨g, rest, hf⟩ := rangeStarts_mem hr
            obtain ⟨d, t0, hdt, hd⟩ := tryRange_head hf
            rw [hdt] at hf ⊢
            obtain ⟨ws, hws_eq, hws⟩ := pstrip_decomp_of_nospace_head (t := t0) hd
            have hf2 : (tryRangeCaps (pstrip (d :: t0) ++ ws)).isSome = true := by
              rw [← hws_eq, hf]
              rfl
            have hf3 := tryRange_ws hws hf2
            have hne : pstrip (d :: t0) ≠ [] := by
              intro he
              rw [he] at hf3
              exact absurd hf3 (by decide)
            exact reSearch_isSome tryRange_consume (List.length_pos.mpr hne)
              (by rw [List.drop_zero]; exact hf3)
          · right; left
            obtain ⟨g, rest, hf⟩ := ltStarts_mem hl
            obtain ⟨d, t0, hdt, hd⟩ := tryLt_head hf
            rw [hdt] at hf ⊢
            obtain ⟨ws, hws_eq, hws⟩ := pstrip_decomp_of_nospace_head (t := t0) hd
            have hf2 : (tryLtCaps (pstrip (d :: t0) ++ ws)).isSome = true := by
              rw [← hws_eq, hf]
              rfl
            have hf3 := tryLt_ws hws hf2
            have hne : pstrip (d :: t0) ≠ [] := by
              intro he
              rw [he] at hf3
              exact absurd hf3 (by decide)
            exact reSearch_isSome tryLt_consume (List.length_pos.mpr hne)
              (by rw [List.drop_zero]; exact hf3)
        · right; right
          obtain ⟨g, rest, hf⟩ := gtStarts_mem hg
          obtain ⟨d, t0, hdt, hd⟩ := tryGt_head hf
          rw [hdt] at hf ⊢
          obtain ⟨ws, hws_eq, hws⟩ := pstrip_decomp_of_nospace_head (t := t0) hd
          have hf2 : (tryGtCaps (pstrip (d :: t0) ++ ws)).isSome = true := by
            rw [← hws_eq, hf]
            rfl
          have hf3 := tryGt_ws hws hf2
          have hne : pstrip (d :: t0) ≠ [] := by
            intro he
            rw [he] at hf3
            exact absurd hf3 (by decide)
          exact reSearch_isSome tryGt_consume (List.length_pos.mpr hne)
            (by rw [List.drop_zero]; exact hf3)
      have hmode := parse_ref_mode_of_search (pstrip ((collapseWs (pstrip line)).drop s)) hsearch
      rw [← href] at hmode
      refine ⟨h1, hmode, ?_⟩
      rcases hv : row.result_value with _ | v
      · rw [hv] at h1
        simp at h1
      · rw [hv] at hstat
        rw [hstat]
        exact classify_value_statuses hmode

theorem parse_enabiz_mem {text : List Char} {row : LabRow}
    (h : row ∈ parse_enabiz_text text) : ∃ line, extract_row_from_line line = some row := by
  unfold parse_enabiz_text at h
  obtain ⟨line, -, hline⟩ := List.mem_filterMap.mp h
  exact ⟨line, hline⟩

/-! ### Normalization: `norm_core` output shape -/

theorem lowAlnum_ne_space {c : Char} (h : isLowAlnum c = true) : ¬(c = ' ') := by
  intro he
  rw [he] at h
  exact absurd h (by decide)

theorem lowAlnum_not_space {c : Char} (h : isLowAlnum c = true) : isSpaceCh c = false := by
  simp only [isLowAlnum, Bool.or_eq_true, Bool.and_eq_true, decide_eq_true_eq] at h
  cases hs : isSpaceCh c with
  | false => rfl
  | true =>
    simp only [isSpaceCh, Bool.or_eq_true, decide_eq_true_eq] at hs
    exfalso
    omega

theorem midOK_head {c : Char} {r : List Char} (h : midOK (c :: r) = true) :
    (isLowAlnum c || c == ' ') = true := by
  cases r with
  | nil => simpa [midOK] using h
  | cons d r' =>
    unfold midOK at h
    simp only [Bool.and_eq_true] at h
    exact h.1.1

theorem midOK_pair {c : Char} {r : List Char} (h : midOK (c :: r) = true) (hc : c = ' ') :
    r.head? ≠ some ' ' := by
  cases r with
  | nil => simp
  | cons d r' =>
    unfold midOK at h
    simp only [Bool.and_eq_true] at h
    intro hd
    have : d = ' ' := by simpa using hd
    subst hc
    subst this
    simpa using h.1.2

theorem midOK_tail {c : Char} {r : List Char} (h : midOK (c :: r) = true) :
    midOK r = true := by
  cases r with
  | nil => rfl
  | cons d r' =>
    unfold midOK at h
    simp only [Bool.and_eq_true] at h
    exact h.2

theorem midOK_cons {c : Char} {t : List Char} (hok : (isLowAlnum c || c == ' ') = true)
    (hcd : c = ' ' → t.head? ≠ some ' ') (ht : midOK t = true) : midOK (c :: t) = true := by
  cases t with
  | nil => simpa [midOK] using hok
  | cons d r =>
    unfold midOK
    simp only [Bool.and_eq_true]
    refine ⟨⟨hok, ?_⟩, ht⟩
    by_cases hc : c = ' '
    · have hd : ¬(d = ' ') := by
        intro hd
        exact hcd hc (by simp [hd])
      simp [hc, hd]
    · simp [hc]

theorem subNAF_true_head : ∀ (z : List Char) (c : Char) (t : List Char),
    subNAF true z = c :: t → isLowAlnum c = true := by
  intro z
  induction z with
  | nil => intro c t h; simp [subNAF] at h
  | cons a z' ih =>
    intro c t h
    unfold subNAF at h
    by_cases ha : isLowAlnum a = true
    · rw [if_pos ha] at h
      injection h with h1 _
      rw [← h1]
      exact ha
    · rw [if_neg ha, if_pos rfl] at h
      exact ih c t h

theorem subNAF_true_head_ne_space {z : List Char} : (subNAF true z).head? ≠ some ' ' := by
  rcases hz : subNAF true z with _ | ⟨c, t⟩
  · simp
  · have := subNAF_true_head z c t hz
    simp only [List.head?_cons]
    intro he
    have : c = ' ' := by simpa using he
    exact lowAlnum_ne_space (subNAF_true_head z c t hz) this

theorem subNAF_midOK : ∀ (z : List Char) (flag : Bool), midOK (subNAF flag z) = true := by
  intro z
  induction z with
  | nil => intro flag; rfl
  | cons a z' ih =>
    intro flag
    unfold subNAF
    by_cases ha : isLowAlnum a = true
    · rw [if_pos ha]
      refine midOK_cons (by simp [ha]) ?_ (ih false)
      intro hc
      exact absurd hc (lowAlnum_ne_space ha)
    · rw [if_neg ha]
      cases flag with
      | true =>
        rw [if_pos rfl]
        exact ih true
      | false =>
        rw [if_neg (by simp)]
        refine midOK_cons (by simp) ?_ (ih true)
        intro _
        exact subNAF_true_head_ne_space

theorem collapseF_id : ∀ t : List Char, midOK t = true →
    collapseF false t = t ∧ (t.head? ≠ some ' ' → collapseF true t = t) := by
  intro t
  induction t with
  | nil => exact fun _ => ⟨rfl, fun _ => rfl⟩
  | cons c r ih =>
    intro hm
    obtain ⟨ih1, ih2⟩ := ih (midOK_tail hm)
    have hok := midOK_head hm
    by_cases hc : c = ' '
    · subst hc
      have hpair := midOK_pair hm rfl
      constructor
      · unfold collapseF
        rw [if_pos (by decide), if_neg (by simp)]
        rw [ih2 hpair]
      · intro habs
        exact absurd (by simp) habs
    · have halnum : isLowAlnum c = true := by
        rcases Bool.or_eq_true_iff.mp hok with h | h
        · exact h
        · exact absurd (by simpa using h) hc
      have hsp : isSpaceCh c = false := lowAlnum_not_space halnum
      constructor
      · unfold collapseF
        rw [hsp]
        simp only [Bool.false_eq_true, if_false]
        rw [ih1]
      · intro _
        unfold collapseF
        rw [hsp]
        simp only [Bool.false_eq_true, if_false]
        rw [ih1]

theorem subNAF_id : ∀ t : List Char, midOK t = true →
    subNAF false t = t ∧ (t.head? ≠ some ' ' → subNAF true t = t) := by
  intro t
  induction t with
  | nil => exact fun _ => ⟨rfl, fun _ => rfl⟩
  | cons c r ih =>
    intro hm
    obtain ⟨ih1, ih2⟩ := ih (midOK_tail hm)
    have hok := midOK_head hm
    by_cases hc : c = ' '
    · subst hc
      have hpair := midOK_pair hm rfl
      have hna : isLowAlnum ' ' = false := by decide
      constructor
      · unfold subNAF
        rw [hna]
        simp only [Bool.false_eq_true, if_false]
        rw [ih2 hpair]
      · intro habs
        exact absurd (by simp) habs
    · have halnum : isLowAlnum c = true := by
        rcases Bool.or_eq_true_iff.mp hok with h | h
        · exact h
        · exact absurd (by simpa using h) hc
      constructor
      · unfold subNAF
        rw [halnum]
        simp only [if_true]
        rw [ih1]
      · intro _
        unfold subNAF
        rw [halnum]
        simp only [if_true]
        rw [ih1]

/-! ### Normalization: idempotence of the core pipeline -/

theorem midOK_mem : ∀ {t : List Char}, midOK t = true →
    ∀ c ∈ t, (isLowAlnum c || c == ' ') = true := by
  intro t
  induction t with
  | nil => intro _ c hc; simp at hc
  | cons d r ih =>
    intro h c hc
    rcases List.mem_cons.mp hc with rfl | hc'
    · exact midOK_head h
    · exact ih (midOK_tail h) c hc'

theorem midOK_lstrip {t : List Char} (h : midOK t = true) : midOK (lstrip t) = true := by
  induction t with
  | nil => exact h
  | cons c r ih =>
    rw [lstrip, List.dropWhile_cons]
    by_cases hc : isSpaceCh c = true
    · rw [hc]
      simp only [if_true]
      exact ih (midOK_tail h)
    · rw [Bool.not_eq_true] at hc
      rw [hc]
      simp only [Bool.false_eq_true, if_false]
      exact h

theorem midOK_append_left : ∀ {a b : List Char}, midOK (a ++ b) = true → midOK a = true := by
  intro a
  induction a with
  | nil => intro b _; rfl
  | cons c r ih =>
    intro b h
    cases r with
    | nil =>
      simp only [List.cons_append, List.nil_append] at h
      cases b with
      | nil => exact h
      | cons d r' =>
        unfold midOK at h
        simp only [Bool.and_eq_true] at h
        simpa [midOK] using h.1.1
    | cons c2 r2 =>
      simp only [List.cons_append] at h
      unfold midOK at h
      simp only [List.cons_append, Bool.and_eq_true] at h
      have ht := ih (b := b) h.2
      exact midOK_cons h.1.1 (fun hc => by
        intro hd
        have : c2 = ' ' := by simpa using hd
        subst hc
        subst this
        simpa using h.1.2) ht

theorem midOK_rstrip {t : List Char} (h : midOK t = true) : midOK (rstrip t) = true := by
  obtain ⟨ws, hws, -⟩ := rstrip_decomp t
  rw [hws] at h
  exact midOK_append_left h

theorem rstrip_last_not_space {t c : _} (h : (rstrip t).getLast? = some c) :
    isSpaceCh c = false := by
  have h2 : (rstrip t).reverse.head? = some c := by
    rw [List.head?_reverse, h]
  have h3 : (rstrip t).reverse = t.reverse.dropWhile isSpaceCh := by
    unfold rstrip
    rw [List.reverse_reverse]
  rw [h3] at h2
  rcases hdw : t.reverse.dropWhile isSpaceCh with _ | ⟨d, r⟩
  · rw [hdw] at h2; simp at h2
  · rw [hdw] at h2
    have hd : isSpaceCh d = false := lstrip_head_nospace hdw
    have : d = c := by simpa using h2
    rw [← this]
    exact hd

theorem pstrip_getLast_not_space {t : List Char} {c : Char}
    (h : (pstrip t).getLast? = some c) : isSpaceCh c = false :=
  rstrip_last_not_space h

theorem pstrip_head_not_space {t : List Char} {c : Char} {r : List Char}
    (h : pstrip t = c :: r) : isSpaceCh c = false := by
  obtain ⟨t2, ht2⟩ := rstrip_head h
  exact lstrip_head_nospace ht2

theorem not_space_ne_space {c : Char} (h : isSpaceCh c = false) : (c == ' ') = false := by
  cases he : c == ' '
  · rfl
  · have : c = ' ' := by simpa using he
    rw [this] at h
    exact absurd h (by decide)

theorem goodNorm_of_pstrip_midOK {t : List Char} (h : midOK t = true) :
    goodNorm (pstrip t) = true := by
  unfold goodNorm
  have hmid : midOK (pstrip t) = true := midOK_rstrip (midOK_lstrip h)
  rw [hmid]
  simp only [Bool.true_and, Bool.and_eq_true]
  constructor
  · rcases hp : pstrip t with _ | ⟨c, r⟩
    · rfl
    · have hc := pstrip_head_not_space hp
      have hne : ¬(c = ' ') := fun he => by rw [he] at hc; exact absurd hc (by decide)
      simp [hne]
  · rcases hl : (pstrip t).getLast? with _ | c
    · rfl
    · have hc := pstrip_getLast_not_space hl
      have hne : ¬(c = ' ') := fun he => by rw [he] at hc; exact absurd hc (by decide)
      simp [hne]

theorem goodNorm_norm_core (z : List Char) : goodNorm (norm_core z) = true := by
  unfold norm_core
  have hmid : midOK (subNA ((caseFoldList (pstrip z)).map trChar)) = true :=
    subNAF_midOK _ false
  have hcoll : collapseWs (subNA ((caseFoldList (pstrip z)).map trChar)) =
      subNA ((caseFoldList (pstrip z)).map trChar) := (collapseF_id _ hmid).1
  rw [hcoll]
  exact goodNorm_of_pstrip_midOK hmid

theorem charOK_toNat_le {c : Char} (hok : (isLowAlnum c || c == ' ') = true) :
    c.toNat ≤ 122 ∧ ¬(65 ≤ c.toNat ∧ c.toNat ≤ 90) := by
  rcases Bool.or_eq_true_iff.mp hok with h | h
  · simp only [isLowAlnum, Bool.or_eq_true, Bool.and_eq_true, decide_eq_true_eq] at h
    omega
  · have : c = ' ' := by simpa using h
    rw [this]
    decide

theorem caseFoldChar_id {c : Char} (hok : (isLowAlnum c || c == ' ') = true) :
    caseFoldChar c = [c] := by
  obtain ⟨hle, hAZ⟩ := charOK_toNat_le hok
  unfold caseFoldChar
  rw [if_neg hAZ]
  rw [if_neg (fun he => by rw [he] at hle; exact absurd hle (by decide))]
  rw [if_neg (fun he => by rw [he] at hle; exact absurd hle (by decide))]
  rw [if_neg (fun he => by rw [he] at hle; exact absurd hle (by decide))]
  rw [if_neg (fun he => by rw [he] at hle; exact absurd hle (by decide))]
  rw [if_neg (fun he => by rw [he] at hle; exact absurd hle (by decide))]
  rw [if_neg (fun he => by rw [he] at hle; exact absurd hle (by decide))]

theorem trChar_id {c : Char} (hok : (isLowAlnum c || c == ' ') = true) : trChar c = c := by
  obtain ⟨hle, -⟩ := charOK_toNat_le hok
  unfold trChar
  rw [if_neg (fun he => by rw [he] at hle; exact absurd hle (by decide))]
  rw [if_neg (fun he => by rw [he] at hle; exact absurd hle (by decide))]
  rw [if_neg (fun he => by rw [he] at hle; exact absurd hle (by decide))]
  rw [if_neg (fun he => by rw [he] at hle; exact absurd hle (by decide))]
  rw [if_neg (fun he => by rw [he] at hle; exact absurd hle (by decide))]
  rw [if_neg (fun he => by rw [he] at hle; exact absurd hle (by decide))]
  rw [if_neg (fun he => by rw [he] at hle; exact absurd hle (by decide))]
  rw [if_neg (fun he => by rw [he] at hle; exact absurd hle (by decide))]
  rw [if_neg (fun he => by rw [he] at hle; exact absurd hle (by decide))]
  rw [if_neg (fun he => by rw [he] at hle; exact absurd hle (by decide))]
  rw [if_neg (fun he => by rw [he] at hle; exact absurd hle (by decide))]
  rw [if_neg (fun he => by rw [he] at hle; exact absurd hle (by decide))]

theorem caseFoldList_id {t : List Char} (h : ∀ c ∈ t, caseFoldChar c = [c]) :
    caseFoldList t = t := by
  induction t with
  | nil => rfl
  | cons c r ih =>
    unfold caseFoldList
    simp only [List.map_cons, List.flatten_cons]
    rw [h c (by simp)]
    have h2 := ih (fun d hd => h d (by simp [hd]))
    unfold caseFoldList at h2
    rw [h2]
    rfl

theorem map_id_of {f : Char → Char} {t : List Char} (h : ∀ c ∈ t, f c = c) :
    t.map f = t := by
  induction t with
  | nil => rfl
  | cons c r ih =>
    simp only [List.map_cons]
    rw [h c (by simp), ih (fun d hd => h d (by simp [hd]))]

theorem lstrip_eq_self_of_head {t : List Char} (hmid : midOK t = true)
    (hhead : (!(t.head? == some ' ')) = true) : lstrip t = t := by
  cases t with
  | nil => rfl
  | cons c r =>
    have hok := midOK_head hmid
    have hcne : (c == ' ') = false := by simpa using hhead
    have halnum : isLowAlnum c = true := by
      rcases Bool.or_eq_true_iff.mp hok with h | h
      · exact h
      · rw [h] at hcne; exact absurd hcne (by decide)
    exact lstrip_cons_nospace (lowAlnum_not_space halnum)

theorem rstrip_eq_self {cs : List Char}
    (h : ∀ c l, cs = l ++ [c] → isSpaceCh c = false) : rstrip cs = cs := by
  unfold rstrip
  cases hr : cs.reverse with
  | nil =>
    have h0 : cs = [] := by simpa using congrArg List.reverse hr
    simp [h0]
  | cons c l =>
    have hcs : cs = l.reverse ++ [c] := by
      have h2 := congrArg List.reverse hr
      simpa using h2
    rw [List.dropWhile_cons, h c l.reverse hcs]
    simp only [Bool.false_eq_true, if_false]
    rw [← hr, List.reverse_reverse]

theorem rstrip_eq_self_of_last {t : List Char} (hmid : midOK t = true)
    (hlast : (!(t.getLast? == some ' ')) = true) : rstrip t = t := by
  apply rstrip_eq_self
  intro c l hcl
  have hg : t.getLast? = some c := by
    rw [hcl]
    exact List.getLast?_concat l
  rw [hg] at hlast
  have hcne : (c == ' ') = false := by simpa using hlast
  have hok : (isLowAlnum c || c == ' ') = true :=
    midOK_mem hmid c (by rw [hcl]; simp)
  have halnum : isLowAlnum c = true := by
    rcases Bool.or_eq_true_iff.mp hok with h | h
    · exact h
    · rw [h] at hcne; exact absurd hcne (by decide)
  exact lowAlnum_not_space halnum

theorem subNA_id {t : List Char} (hmid : midOK t = true) : subNA t = t :=
  (subNAF_id t hmid).1

theorem collapseWs_id {t : List Char} (hmid : midOK t = true) : collapseWs t = t :=
  (collapseF_id t hmid).1

theorem norm_core_id {t : List Char} (h : goodNorm t = true) : norm_core t = t := by
  unfold goodNorm at h
  simp only [Bool.and_eq_true] at h
  obtain ⟨⟨hmid, hhead⟩, hlast⟩ := h
  have hstrip : pstrip t = t := by
    unfold pstrip
    rw [lstrip_eq_self_of_head hmid hhead, rstrip_eq_self_of_last hmid hlast]
  have hchars := midOK_mem hmid
  unfold norm_core
  rw [hstrip]
  rw [caseFoldList_id (fun c hc => caseFoldChar_id (hchars c hc))]
  rw [map_id_of (fun c hc => trChar_id (hchars c hc))]
  rw [subNA_id hmid, collapseWs_id hmid]
  exact hstrip

theorem norm_core_idem (l : List Char) : norm_core (norm_core l) = norm_core l :=
  norm_core_id (goodNorm_norm_core l)

theorem alookup_mem {β : Type} : ∀ (l : List (String × β)) (s : String) (v : β),
    alookup l s = some v → ∃ k, (k, v) ∈ l := by
  intro l
  induction l with
  | nil => intro s v h; simp [alookup] at h
  | cons kv rest ih =>
    intro s v h
    obtain ⟨k0, v0⟩ := kv
    unfold alookup at h
    by_cases hs : s = k0
    · rw [if_pos hs] at h
      have : v0 = v := by simpa using h
      subst this
      exact ⟨k0, by simp⟩
    · rw [if_neg hs] at h
      obtain ⟨k, hk⟩ := ih s v h
      exact ⟨k, by simp [hk]⟩

theorem synTable_values_fixed : (synTable.all (fun kv => norm_key kv.2 == kv.2)) = true := by
  decide

theorem norm_key_idem (s : String) : norm_key (norm_key s) = norm_key s := by
  have hdef : ∀ x : String, norm_key x =
      (alookup synTable (String.mk (norm_core x.data))).getD (String.mk (norm_core x.data)) :=
    fun _ => rfl
  rcases hlk : alookup synTable (String.mk (norm_core s.data)) with _ | v
  · have h1 : norm_key s = String.mk (norm_core s.data) := by
      rw [hdef s, hlk]
      rfl
    rw [h1]
    have hdata : (String.mk (norm_core s.data)).data = norm_core s.data := rfl
    rw [hdef (String.mk (norm_core s.data)), hdata, norm_core_idem, hlk]
    rfl
  · have h1 : norm_key s = v := by
      rw [hdef s, hlk]
      rfl
    rw [h1]
    obtain ⟨k, hmem⟩ := alookup_mem _ _ _ hlk
    have hall := List.all_eq_true.mp synTable_values_fixed (k, v) hmem
    simpa using hall

/-! ## The claims -/

theorem measurement_alerts_eq_sort (th : Th) (ms : List Measurement) :
    measurement_alerts th ms =
      sortK (fun i => sevRank i.severity) (measurement_alerts_pre th ms) := by
  unfold measurement_alerts measurement_alerts_pre
  dsimp only
  by_cases h : (ms.filter (fun m => decide (0 < m.weight_kg.getD 0))).length < 2
  · rw [if_pos h, if_pos h]
    rfl
  · rw [if_neg h, if_neg h]

theorem concat3_getLast {α : Type} [DecidableEq α] (R L G : List α) :
    (R ++ L ++ G).getLast? =
      (if G ≠ [] then G.getLast?
       else if L ≠ [] then L.getLast? else R.getLast?) := by
  rw [getLast?_append_ite, getLast?_append_ite]
  by_cases hg : G = []
  · subst hg
    by_cases hl : L = []
    · subst hl
      simp
    · simp [hl]
  · simp [hg]

/-- C1 (amended): the reference-selection loop keeps the last match of the
last pattern that matched at all, in pattern order range, lt, gt — so a
gt match beats every lt match, and an lt match beats every range match,
regardless of start positions; and when no pattern matches anywhere the
extractor returns nothing. -/
theorem C1_ref_selection :
    ∀ line : List Char,
      refMatchStart (collapseWs (pstrip line)) =
        (if gtStarts (collapseWs (pstrip line)) ≠ [] then
           (gtStarts (collapseWs (pstrip line))).getLast?
         else if ltStarts (collapseWs (pstrip line)) ≠ [] then
           (ltStarts (collapseWs (pstrip line))).getLast?
         else (rangeStarts (collapseWs (pstrip line))).getLast?) ∧
      (refMatchStart (collapseWs (pstrip line)) = none →
        extract_row_from_line line = none) := by
  intro line
  constructor
  · unfold refMatchStart
    exact concat3_getLast _ _ _
  · intro hnone
    unfold extract_row_from_line
    dsimp only
    by_cases hlen : (collapseWs (pstrip line)).length < 8
    · rw [if_pos hlen]
    · rw [if_neg hlen, hnone]

/-- The claimed rightmost-start selection is false: in
"Test 5 >10 2 - 3" the range match "2 - 3" starts at 11, right of the
gt match ">10" at 7, yet the loop keeps the gt match, and the extracted
reference text is the line from position 7 on. -/
theorem C1_counterexample :
    rangeStarts (collapseWs (pstrip "Test 5 >10 2 - 3".data)) = [11] ∧
    gtStarts (collapseWs (pstrip "Test 5 >10 2 - 3".data)) = [7] ∧
    refMatchStart (collapseWs (pstrip "Test 5 >10 2 - 3".data)) = some 7 ∧
    (7 : ℕ) < 11 ∧
    (extract_row_from_line "Test 5 >10 2 - 3".data).map (fun r => r.ref_text) =
      some ">10 2 - 3".data := by
  decide

/-- A line with no reference-shaped substring extracts to nothing. -/
theorem C1_witness : extract_row_from_line "abcdefgh".data = none :=
  (C1_ref_selection "abcdefgh".data).2 (by decide)

/-- C2 (amended): every RefRange returned by parse_ref satisfies the mode
invariant on bound presence: mode "range" carries both bounds, "lt" a high
bound, "gt" a low bound, "unknown" no bounds. Nothing orders low against
high. -/
theorem C2_ref_mode_invariant :
    ∀ cs : List Char, refModeInvariant (parse_ref cs) = true :=
  parse_ref_invariant

/-- The low ≤ high part of the claimed invariant is false: parse_ref on
"100 - 70" returns mode "range" with low 100 and high 70. -/
theorem C2_counterexample :
    (parse_ref "100 - 70".data).mode = "range" ∧
    (parse_ref "100 - 70".data).low = some 100 ∧
    (parse_ref "100 - 70".data).high = some 70 ∧
    ¬((100 : ℚ) ≤ 70) := by
  decide

/-- C3 (amended): for a range with low < high whose span is at least the
1e-6 floor baked into classify_value, and any borderline ratio strictly
between 0 and 1/2, the four band boundaries low, low + span·ratio,
high − span·ratio, high are strictly ordered (so every band, in particular
the normal band, is a nonempty interval), and classify_value is exactly the
five-band piecewise classifier low / borderline / normal / borderline /
high in that order of increasing value. -/
theorem C3_borderline_bands :
    ∀ (lo hi br v : ℚ) (t : List Char),
      lo < hi → 1/1000000 ≤ hi - lo → 0 < br → br < 1/2 →
      (lo < lo + (hi - lo) * br ∧ lo + (hi - lo) * br < hi - (hi - lo) * br ∧
        hi - (hi - lo) * br < hi) ∧
      classify_value (some v) ⟨"range", some lo, some hi, t⟩ br =
        (if v < lo then "low"
         else if v ≤ lo + (hi - lo) * br then "borderline"
         else if v < hi - (hi - lo) * br then "normal"
         else if v ≤ hi then "borderline"
         else "high") := by
  intro lo hi br v t h1 h2 h3 h4
  have hspan : max (hi - lo) (1/1000000 : ℚ) = hi - lo := max_eq_left h2
  have hb1 : lo < lo + (hi - lo) * br := by nlinarith
  have hb2 : lo + (hi - lo) * br < hi - (hi - lo) * br := by nlinarith
  have hb3 : hi - (hi - lo) * br < hi := by nlinarith
  refine ⟨⟨hb1, hb2, hb3⟩, ?_⟩
  unfold classify_value
  dsimp only
  rw [if_pos rfl, hspan]
  by_cases hv1 : v < lo
  · rw [if_pos hv1, if_pos hv1]
  · rw [if_neg hv1, if_neg hv1]
    push_neg at hv1
    by_cases hv2 : hi < v
    · rw [if_pos hv2, if_neg (by linarith), if_neg (by linarith), if_neg (by linarith)]
    · rw [if_neg hv2]
      push_neg at hv2
      by_cases hv3 : v ≤ lo + (hi - lo) * br
      · rw [if_pos (Or.inl hv3), if_pos hv3]
      · rw [if_neg hv3]
        push_neg at hv3
        by_cases hv4 : v < hi - (hi - lo) * br
        · rw [if_neg (fun hor => hor.elim (fun hc => absurd hc (not_le.mpr hv3))
            (fun hc => absurd hv4 (not_lt.mpr hc))), if_pos hv4]
        · push_neg at hv4
          rw [if_pos (Or.inr hv4), if_neg (not_lt.mpr hv4), if_pos hv2]

/-- The claimed nonempty normal band fails without a span floor hypothesis:
with low 0, high 1/2000000 (span below the 1e-6 floor) and ratio 1/4,
a value in the middle of the range is borderline and in fact no value at
all classifies as normal. -/
theorem C3_counterexample :
    (0 : ℚ) < 1/2000000 ∧ (0 : ℚ) < 1/4 ∧ (1/4 : ℚ) < 1/2 ∧
    classify_value (some (1/4000000)) ⟨"range", some 0, some (1/2000000), []⟩ (1/4) =
      "borderline" ∧
    ∀ v : ℚ,
      classify_value (some v) ⟨"range", some 0, some (1/2000000), []⟩ (1/4) ≠ "normal" := by
  have hspan : max ((1/2000000 : ℚ) - 0) (1/1000000 : ℚ) = 1/1000000 :=
    max_eq_right (by norm_num)
  refine ⟨by norm_num, by norm_num, by norm_num, ?_, ?_⟩
  · unfold classify_value
    dsimp only
    rw [if_pos rfl, hspan, if_neg (by norm_num), if_neg (by norm_num),
      if_pos (Or.inl (by norm_num))]
  intro v
  unfold classify_value
  dsimp only
  rw [if_pos rfl, hspan]
  by_cases h1 : v < 0
  · rw [if_pos h1]
    decide
  · rw [if_neg h1]
    by_cases h2 : (1/2000000 : ℚ) < v
    · rw [if_pos h2]
      decide
    · rw [if_neg h2]
      push_neg at h1 h2
      have hcond : v ≤ 0 + 1/1000000 * (1/4) ∨ (1/2000000 : ℚ) - 1/1000000 * (1/4) ≤ v := by
        rcases le_or_lt v (1/4000000 : ℚ) with h | h
        · left
          linarith
        · right
          linarith
      rw [if_pos hcond]
      decide

/-- The five bands at range 0 - 10 with the default ratio 1/20: the value 5
sits in the open normal band. -/
theorem C3_witness :
    classify_value (some 5) ⟨"range", some 0, some 10, []⟩ (1/20) = "normal" := by
  have h := C3_borderline_bands 0 10 (1/20) 5 [] (by norm_num) (by norm_num) (by norm_num)
    (by norm_num)
  rw [h.2, if_neg (by norm_num), if_neg (by norm_num), if_pos (by norm_num)]

set_option allowUnsafeReducibility true in
attribute [semireducible] Rat.add Rat.mul Rat.sub Rat.div Rat.inv

/-- C4: with the default thresholds, a row list whose only recognized test is
hba1c yields exactly one insight, whose severity is critical at value 7.1,
warn at 5.9 and info at 5.2, each title mentioning HbA1c. -/
theorem C4_hba1c_single_row :
    (lab_insights DEFAULT_CLINICAL_THRESHOLDS [⟨"HbA1c", some (71/10), some "high"⟩]).map
        (fun i => (i.severity, i.title)) = [("critical", "HbA1c yüksek (7.10).")] ∧
    containsSeg "HbA1c".data "HbA1c yüksek (7.10).".data = true ∧
    (lab_insights DEFAULT_CLINICAL_THRESHOLDS [⟨"HbA1c", some (59/10), some "high"⟩]).map
        (fun i => (i.severity, i.title)) = [("warn", "HbA1c sınırda/yüksek (5.90).")] ∧
    containsSeg "HbA1c".data "HbA1c sınırda/yüksek (5.90).".data = true ∧
    (lab_insights DEFAULT_CLINICAL_THRESHOLDS [⟨"HbA1c", some (52/10), some "normal"⟩]).map
        (fun i => (i.severity, i.title)) = [("info", "HbA1c normal (5.20).")] ∧
    containsSeg "HbA1c".data "HbA1c normal (5.20).".data = true := by
  decide

/-- C5: the outputs of lab_insights and measurement_alerts are sorted by
severity rank (critical before warn before info), and the sort is stable:
within each severity the emission order of the rule pass is preserved,
stated as filter-equality against the unsorted rule output. -/
theorem C5_severity_sorted :
    ∀ (th : Th) (rows : List LabRowD) (ms : List Measurement),
      ((lab_insights th rows).Pairwise
          (fun a b => sevRank a.severity ≤ sevRank b.severity) ∧
        (lab_insights th rows).filter (fun i => i.severity == "critical") =
          (lab_insights_core th rows).filter (fun i => i.severity == "critical") ∧
        (lab_insights th rows).filter (fun i => i.severity == "warn") =
          (lab_insights_core th rows).filter (fun i => i.severity == "warn") ∧
        (lab_insights th rows).filter (fun i => i.severity == "info") =
          (lab_insights_core th rows).filter (fun i => i.severity == "info")) ∧
      ((measurement_alerts th ms).Pairwise
          (fun a b => sevRank a.severity ≤ sevRank b.severity) ∧
        (measurement_alerts th ms).filter (fun i => i.severity == "critical") =
          (measurement_alerts_pre th ms).filter (fun i => i.severity == "critical") ∧
        (measurement_alerts th ms).filter (fun i => i.severity == "warn") =
          (measurement_alerts_pre th ms).filter (fun i => i.severity == "warn") ∧
        (measurement_alerts th ms).filter (fun i => i.severity == "info") =
          (measurement_alerts_pre th ms).filter (fun i => i.severity == "info")) := by
  intro th rows ms
  constructor
  · unfold lab_insights
    exact ⟨sortK_pairwise _ _, sev_filter_eq sevRank_eq_zero_iff _,
      sev_filter_eq sevRank_eq_one_iff _, sev_filter_eq sevRank_eq_two_iff _⟩
  · rw [measurement_alerts_eq_sort th ms]
    exact ⟨sortK_pairwise _ _, sev_filter_eq sevRank_eq_zero_iff _,
      sev_filter_eq sevRank_eq_one_iff _, sev_filter_eq sevRank_eq_two_iff _⟩

/-- C6: the line "Glukoz 148 mg/dL 70 - 100" extracts to the row with
test_name "Glukoz", result_value 148, unit "mg/dL", reference mode "range"
with low 70 and high 100, and status "high" (the fields of glukozRow). -/
theorem C6_glukoz_line :
    extract_row_from_line "Glukoz 148 mg/dL 70 - 100".data = some glukozRow := by
  decide

/-- C7: norm_key is idempotent on every string, and every synonym-table
value is itself a fixed point of norm_key. -/
theorem C7_norm_key_idempotent :
    (synTable.all (fun kv => norm_key kv.2 == kv.2)) = true ∧
    ∀ s : String, norm_key (norm_key s) = norm_key s :=
  ⟨synTable_values_fixed, norm_key_idem⟩

/-- C8: measurement_alerts never returns an empty list: with fewer than 2
weight-bearing points it is exactly the need-more-data info insight, and
with at least 2 such points and no triggered rule it is exactly the
reassuring info insight. -/
theorem C8_alerts_nonempty :
    ∀ (th : Th) (ms : List Measurement),
      measurement_alerts th ms ≠ [] ∧
      ((ms.filter (fun m => decide (0 < m.weight_kg.getD 0))).length < 2 →
        measurement_alerts th ms = [needDataInsight]) ∧
      (2 ≤ (ms.filter (fun m => decide (0 < m.weight_kg.getD 0))).length →
        measurement_rules th (sortK (fun m => m.measured_at)
          (ms.filter (fun m => decide (0 < m.weight_kg.getD 0)))) = [] →
        measurement_alerts th ms = [reassureInsight]) := by
  intro th ms
  unfold measurement_alerts
  dsimp only
  by_cases h : (ms.filter (fun m => decide (0 < m.weight_kg.getD 0))).length < 2
  · rw [if_pos h]
    exact ⟨by simp, fun _ => rfl, fun h2 _ => absurd h2 (by omega)⟩
  · rw [if_neg h]
    by_cases hout : measurement_rules th (sortK (fun m => m.measured_at)
        (ms.filter (fun m => decide (0 < m.weight_kg.getD 0)))) = []
    · rw [if_pos hout]
      exact ⟨List.cons_ne_nil _ _, fun h2 => absurd h2 h, fun _ _ => rfl⟩
    · rw [if_neg hout]
      exact ⟨sortK_ne_nil _ hout, fun h2 => absurd h2 h, fun _ h2 => absurd h2 hout⟩

/-- An empty history has no weight-bearing point, so measurement_alerts is
the single need-more-data insight. -/
theorem C8_witness :
    measurement_alerts DEFAULT_CLINICAL_THRESHOLDS [] = [needDataInsight] :=
  (C8_alerts_nonempty DEFAULT_CLINICAL_THRESHOLDS []).2.1 (by decide)

/-- C9 (amended): parse_ref is total by construction, its stored text is the
stripped input, and when none of the three patterns matches the stripped
input it returns mode "unknown" with no bounds and that stripped text. -/
theorem C9_parse_ref_total :
    ∀ cs : List Char,
      (parse_ref cs).text = pstrip cs ∧
      ((reSearch tryRangeCaps (pstrip cs) = none ∧ reSearch tryLtCaps (pstrip cs) = none ∧
          reSearch tryGtCaps (pstrip cs) = none) →
        parse_ref cs = ⟨"unknown", none, none, pstrip cs⟩) :=
  fun cs => ⟨parse_ref_text cs,
    fun ⟨h1, h2, h3⟩ => parse_ref_no_match cs h1 h2 h3⟩

/-- The claimed unchanged text is false on inputs with surrounding
whitespace: parse_ref strips, so on " abc " the stored text is "abc". -/
theorem C9_counterexample :
    (parse_ref " abc ".data).mode = "unknown" ∧
    (parse_ref " abc ".data).text = "abc".data ∧
    "abc".data ≠ " abc ".data := by
  decide

/-- No pattern matches " abc ", so parse_ref returns unknown with the
stripped text. -/
theorem C9_witness :
    parse_ref " abc ".data = ⟨"unknown", none, none, pstrip " abc ".data⟩ :=
  (C9_parse_ref_total " abc ".data).2 ⟨by decide, by decide, by decide⟩

/-- C10: every row produced by parse_enabiz_text carries a parsed numeric
result value, a reference of mode "range"/"lt"/"gt" with its required
bounds present, and a status among low, high, borderline, normal — never
"unknown". -/
theorem C10_rows_well_formed :
    ∀ (text : List Char) (row : LabRow),
      row ∈ parse_enabiz_text text →
      row.result_value.isSome = true ∧
      ((row.ref.mode = "range" ∧ row.ref.low.isSome = true ∧ row.ref.high.isSome = true) ∨
       (row.ref.mode = "lt" ∧ row.ref.high.isSome = true) ∨
       (row.ref.mode = "gt" ∧ row.ref.low.isSome = true)) ∧
      (row.status = "low" ∨ row.status = "high" ∨ row.status = "borderline" ∨
        row.status = "normal") := by
  intro text row hmem
  obtain ⟨line, hline⟩ := parse_enabiz_mem hmem
  exact extract_row_props hline

/-- The Glukoz row of the sample text is well formed in the sense of the
invariant. -/
theorem C10_witness :
    glukozRow.result_value.isSome = true ∧
    ((glukozRow.ref.mode = "range" ∧ glukozRow.ref.low.isSome = true ∧
      glukozRow.ref.high.isSome = true) ∨
     (glukozRow.ref.mode = "lt" ∧ glukozRow.ref.high.isSome = true) ∨
     (glukozRow.ref.mode = "gt" ∧ glukozRow.ref.low.isSome = true)) ∧
    (glukozRow.status = "low" ∨ glukozRow.status = "high" ∨ glukozRow.status = "borderline" ∨
      glukozRow.status = "normal") :=
  C10_rows_well_formed "Glukoz 148 mg/dL 70 - 100".data glukozRow (by decide)
